import Mathlib

/-!
Verification development for the FormulaAI document-formatting pipeline.

The Python sources are shallowly embedded: dynamic Python values become the
`PyVal` inductive, `json.loads` becomes the fuel-based recursive-descent
parser `jsonLoads` (covering the standard JSON grammar accepted by Python's
strict decoder; the nonstandard NaN/Infinity literals are outside the model),
and each analysed function of `structure_analyzer.py`, `ai_connector.py` and
`doc_processor.py` becomes a computable Lean definition translated from the
source.  Fallible operations (Python statements that can raise) are modelled
with `Option`.
-/

/-- Model of a dynamically typed Python value as passed around by the
pipeline: `None`, booleans, integers, floats (modelled exactly as rationals),
strings, lists and string-keyed dicts (assoc lists preserving insertion
order, as Python dicts do). -/
inductive PyVal where
  | none : PyVal
  | bool : Bool → PyVal
  | int : Int → PyVal
  | float : ℚ → PyVal
  | str : String → PyVal
  | list : List PyVal → PyVal
  | dict : List (String × PyVal) → PyVal

/-- Lookup in a Python dict (assoc list): value of the first binding of `k`. -/
def dictGet : List (String × PyVal) → String → Option PyVal
  | [], _ => Option.none
  | (k', v) :: t, k => if k' = k then some v else dictGet t k

/-- Membership test for a key in a Python dict. -/
def dictHas (d : List (String × PyVal)) (k : String) : Bool :=
  (dictGet d k).isSome

/-- Python dict item assignment `d[k] = v`: replaces the value of an existing
binding in place, otherwise appends the new binding (insertion order). -/
def dictSet : List (String × PyVal) → String → PyVal → List (String × PyVal)
  | [], k, v => [(k, v)]
  | (k', v') :: t, k, v =>
    if k' = k then (k, v) :: t else (k', v') :: dictSet t k v

/-- Python truthiness (`bool(x)`) for our value model. -/
def pyTruthy : PyVal → Bool
  | .none => false
  | .bool b => b
  | .int n => n != 0
  | .float q => q != 0
  | .str s => s.length != 0
  | .list l => !l.isEmpty
  | .dict d => !d.isEmpty

/-- Boolean prefix test on character lists. -/
def isPrefixOfB : List Char → List Char → Bool
  | [], _ => true
  | _ :: _, [] => false
  | a :: as, b :: bs => a == b && isPrefixOfB as bs

/-- Boolean infix (substring) test on character lists, mirroring Python's
`needle in haystack` on strings. -/
def isInfixOfB (n : List Char) : List Char → Bool
  | [] => n.isEmpty
  | c :: t => isPrefixOfB n (c :: t) || isInfixOfB n t

/-- Python substring containment `needle in hay`. -/
def pyIn (needle hay : String) : Bool :=
  isInfixOfB needle.toList hay.toList

/-- ASCII lowercasing of one character, the fragment of Python `str.lower`
relevant to the analysed inputs (CJK characters are unaffected by `lower`). -/
def asciiLowerChar (c : Char) : Char :=
  if 'A' ≤ c ∧ c ≤ 'Z' then Char.ofNat (c.toNat + 32) else c

/-- ASCII lowercasing of a string, modelling Python `str.lower`. -/
def pyLower (s : String) : String :=
  String.mk (s.toList.map asciiLowerChar)

/-- Whitespace characters recognised by Python's `str.isspace`/`str.strip`
for the ASCII range. -/
def isSpacePy (c : Char) : Bool :=
  c == ' ' || c == '\t' || c == '\n' || c == '\r' || c == '\x0b' || c == '\x0c'

/-- A paragraph is blank when `para.strip()` is falsy: empty or
all-whitespace. -/
def isBlankPara (s : String) : Bool :=
  s.toList.all isSpacePy

/-- Whitespace skipped by Python's JSON decoder (space, tab, newline,
carriage return). -/
def isJsonWs (c : Char) : Bool :=
  c == ' ' || c == '\t' || c == '\n' || c == '\r'

/-- Drop leading JSON whitespace. -/
def skipWs : List Char → List Char
  | [] => []
  | c :: t => if isJsonWs c then skipWs t else c :: t

/-- Hex digit value, for `\uXXXX` string escapes. -/
def hexVal (c : Char) : Option Nat :=
  if '0' ≤ c ∧ c ≤ '9' then some (c.toNat - '0'.toNat)
  else if 'a' ≤ c ∧ c ≤ 'f' then some (c.toNat - 'a'.toNat + 10)
  else if 'A' ≤ c ∧ c ≤ 'F' then some (c.toNat - 'A'.toNat + 10)
  else Option.none

/-- Body of a JSON string literal after the opening quote: returns the decoded
string and the remaining input.  Mirrors Python's strict decoder: raw control
characters below `0x20` are rejected, only the eight named escapes and
`\uXXXX` are accepted (the model restricts `\uXXXX` to valid scalar values). -/
def parseStrBody : List Char → List Char → Option (String × List Char)
  | [], _ => Option.none
  | '"' :: rest, acc => some (String.mk acc.reverse, rest)
  | '\\' :: rest, acc =>
    match rest with
    | [] => Option.none
    | e :: rest' =>
      if e == '"' then parseStrBody rest' ('"' :: acc)
      else if e == '\\' then parseStrBody rest' ('\\' :: acc)
      else if e == '/' then parseStrBody rest' ('/' :: acc)
      else if e == 'b' then parseStrBody rest' ('\x08' :: acc)
      else if e == 'f' then parseStrBody rest' ('\x0c' :: acc)
      else if e == 'n' then parseStrBody rest' ('\n' :: acc)
      else if e == 'r' then parseStrBody rest' ('\r' :: acc)
      else if e == 't' then parseStrBody rest' ('\t' :: acc)
      else if e == 'u' then
        match rest' with
        | h1 :: h2 :: h3 :: h4 :: rest'' =>
          match hexVal h1, hexVal h2, hexVal h3, hexVal h4 with
          | some a, some b, some c, some d =>
            let n := ((a * 16 + b) * 16 + c) * 16 + d
            if n < 0xd800 ∨ 0xdfff < n then
              parseStrBody rest'' (Char.ofNat n :: acc)
            else Option.none
          | _, _, _, _ => Option.none
        | _ => Option.none
      else Option.none
  | c :: rest, acc =>
    if c.toNat < 0x20 then Option.none else parseStrBody rest (c :: acc)

/-- One or more decimal digits taken greedily; returns their value, count and
the rest of the input. -/
def takeDigits : List Char → Nat → Nat → Option (Nat × Nat × List Char)
  | [], acc, n => if n == 0 then Option.none else some (acc, n, [])
  | c :: t, acc, n =>
    if '0' ≤ c ∧ c ≤ '9' then takeDigits t (acc * 10 + (c.toNat - '0'.toNat)) (n + 1)
    else if n == 0 then Option.none else some (acc, n, c :: t)

/-- Integer part of a JSON number: `0`, or a nonzero digit followed by more
digits (leading zeros rejected, as in the JSON grammar). -/
def parseIntPart : List Char → Option (Nat × List Char)
  | [] => Option.none
  | c :: t =>
    if c == '0' then some (0, t)
    else if '1' ≤ c ∧ c ≤ '9' then
      match takeDigits t (c.toNat - '0'.toNat) 1 with
      | some (v, _, rest) => some (v, rest)
      | Option.none => Option.none
    else Option.none

/-- A JSON number following the grammar `-? int frac? exp?`; yields a Python
`int` when neither a fraction nor an exponent is present, else a `float`.
The decimal value is modelled exactly: `mantissa / 10^fracDigits` scaled by
the power-of-ten exponent (assembled with integer arithmetic and `mkRat`). -/
def parseNum (cs : List Char) : Option (PyVal × List Char) :=
  let signed : Bool := match cs with | '-' :: _ => true | _ => false
  let cs1 := match cs with | '-' :: t => t | _ => cs
  match parseIntPart cs1 with
  | Option.none => Option.none
  | some (ip, r1) =>
    let fracRes : Option (Nat × Nat × List Char) :=
      match r1 with
      | '.' :: t =>
        match takeDigits t 0 0 with
        | some (fv, fn, rest) => some (fv, fn, rest)
        | Option.none => Option.none
      | _ => some (0, 0, r1)
    match fracRes with
    | Option.none => Option.none
    | some (fv, fn, r2) =>
      let expRes : Option (Option (Bool × Nat) × List Char) :=
        match r2 with
        | 'e' :: t | 'E' :: t =>
          let eneg : Bool := match t with | '-' :: _ => true | _ => false
          let t1 := match t with | '-' :: u => u | '+' :: u => u | _ => t
          match takeDigits t1 0 0 with
          | some (ev, _, rest) => some (some (eneg, ev), rest)
          | Option.none => Option.none
        | _ => some (Option.none, r2)
      match expRes with
      | Option.none => Option.none
      | some (exp, r3) =>
        if fn == 0 && exp.isNone && (match r1 with | '.' :: _ => false | _ => true) then
          some (.int (if signed then -(ip : Int) else (ip : Int)), r3)
        else
          let mant : Nat := ip * 10 ^ fn + fv
          let nd : Nat × Nat :=
            match exp with
            | some (true, e) => (mant, 10 ^ fn * 10 ^ e)
            | some (false, e) => (mant * 10 ^ e, 10 ^ fn)
            | Option.none => (mant, 10 ^ fn)
          let num : Int := if signed then -(nd.1 : Int) else (nd.1 : Int)
          some (.float (mkRat num nd.2), r3)

/-- Parser mode: a plain value, or the tail of an array / object whose already
parsed members are accumulated. -/
inductive PMode where
  | val : PMode
  | arrRest : List PyVal → PMode
  | objRest : List (String × PyVal) → PMode

/-- Fuel-based recursive-descent JSON parser, modelling Python's
`json.loads` grammar.  In `val` mode the input must start directly at a value
(callers skip whitespace); in the rest modes the input starts at the first
member.  Duplicate object keys keep the first position with the last value,
as Python dicts do. -/
def parseP : Nat → PMode → List Char → Option (PyVal × List Char)
  | 0, _, _ => Option.none
  | Nat.succ fuel, .val, cs =>
    match cs with
    | '{' :: rest =>
      (match skipWs rest with
       | '}' :: r2 => some (.dict [], r2)
       | cs2 => parseP fuel (.objRest []) cs2)
    | '[' :: rest =>
      (match skipWs rest with
       | ']' :: r2 => some (.list [], r2)
       | cs2 => parseP fuel (.arrRest []) cs2)
    | '"' :: rest =>
      (match parseStrBody rest [] with
       | some (s, r) => some (.str s, r)
       | Option.none => Option.none)
    | 't' :: 'r' :: 'u' :: 'e' :: rest => some (.bool true, rest)
    | 'f' :: 'a' :: 'l' :: 's' :: 'e' :: rest => some (.bool false, rest)
    | 'n' :: 'u' :: 'l' :: 'l' :: rest => some (.none, rest)
    | cs => parseNum cs
  | Nat.succ fuel, .arrRest acc, cs =>
    (match parseP fuel .val cs with
     | Option.none => Option.none
     | some (v, rest) =>
       match skipWs rest with
       | ',' :: r2 => parseP fuel (.arrRest (acc ++ [v])) (skipWs r2)
       | ']' :: r2 => some (.list (acc ++ [v]), r2)
       | _ => Option.none)
  | Nat.succ fuel, .objRest acc, cs =>
    (match cs with
     | '"' :: rest =>
       (match parseStrBody rest [] with
        | Option.none => Option.none
        | some (k, r1) =>
          match skipWs r1 with
          | ':' :: r2 =>
            (match parseP fuel .val (skipWs r2) with
             | Option.none => Option.none
             | some (v, r3) =>
               match skipWs r3 with
               | ',' :: r4 => parseP fuel (.objRest (dictSet acc k v)) (skipWs r4)
               | '}' :: r4 => some (.dict (dictSet acc k v), r4)
               | _ => Option.none)
          | _ => Option.none)
     | _ => Option.none)

/-- Model of Python `json.loads` on a character list: parse one value
surrounded by optional whitespace; any trailing data is an error. -/
def jsonLoadsL (cs : List Char) : Option PyVal :=
  match parseP (2 * cs.length + 4) .val (skipWs cs) with
  | some (v, rest) => if (skipWs rest).isEmpty then some v else Option.none
  | Option.none => Option.none

/-- Model of Python `json.loads` on strings. -/
def jsonLoads (s : String) : Option PyVal :=
  jsonLoadsL s.toList

example : jsonLoads "\x7b\"a\": 1\x7d" =
    some (.dict [("a", .int 1)]) := by rfl
example : jsonLoads " [1, 2.5, \"x\", true, null] " =
    some (.list [.int 1, .float (mkRat 5 2), .str "x", .bool true, .none]) := by rfl
example : jsonLoads "\x7b\"a\":\"\x7d\x7b\"" = Option.none := by rfl
example : jsonLoads "\x7b\"a\":\"\x7d\x7b\"\x7d" =
    some (.dict [("a", .str "\x7d\x7b")]) := by rfl
example : jsonLoads "\x7b\"a\":1,\x7d" = Option.none := by rfl
example : jsonLoads "[01]" = Option.none := by rfl
example : jsonLoads "\x7b\"a\": -1.5e2\x7d" =
    some (.dict [("a", .float (mkRat (-150) 1))]) := by rfl

/-- First non-whitespace character of a list, mirroring the scan in
`_fix_json` that advances `j` over `isspace` characters. -/
def firstNonWs : List Char → Option Char
  | [] => Option.none
  | c :: t => if isSpacePy c then firstNonWs t else some c

/-- Position test of repair strategy 1 (`_fix_json` fix 1): index `i` holds
`},` and the next non-whitespace character after it is `]`. -/
def isArrayEndPos (cs : List Char) (i : Nat) : Bool :=
  cs[i]? == some '}' && cs[i + 1]? == some ',' &&
    firstNonWs (cs.drop (i + 2)) == some ']'

/-- Strategy-1 edit at `pos`: replace the two characters `},` by `} `
(`json_str[:pos] + "\x7d " + json_str[pos+2:]`). -/
def fix1At (cs : List Char) (pos : Nat) : List Char :=
  cs.take pos ++ '}' :: ' ' :: cs.drop (pos + 2)

/-- First candidate string in a list that parses as JSON; models the
`try: json.loads(fixed); return fixed; except: pass` loops of `_fix_json`. -/
def firstParsing : List (List Char) → Option (List Char)
  | [] => Option.none
  | c :: t => if (jsonLoadsL c).isSome then some c else firstParsing t

/-- Repair strategy 1: for each occurrence of `},` followed (after
whitespace) by `]`, in left-to-right order, replace the comma by a space and
return the first such edit that parses. -/
def strat1 (cs : List Char) : Option (List Char) :=
  firstParsing (((List.range cs.length).filter (isArrayEndPos cs)).map (fix1At cs))

/-- Position test of repair strategy 2: adjacent `\x7d\x7b` with no separator. -/
def isAdjObjPos (cs : List Char) (i : Nat) : Bool :=
  cs[i]? == some '}' && cs[i + 1]? == some '{'

/-- Insert a comma at `pos` (`json_str[:pos] + "," + json_str[pos:]`). -/
def insertCommaAt (cs : List Char) (pos : Nat) : List Char :=
  cs.take pos ++ ',' :: cs.drop pos

/-- Repair strategy 2: insert a comma between adjacent objects `\x7d\x7b`,
trying each position in order, returning the first edit that parses. -/
def strat2 (cs : List Char) : Option (List Char) :=
  firstParsing
    (((List.range cs.length).filter (isAdjObjPos cs)).map
      (fun i => insertCommaAt cs (i + 1)))

/-- Repair strategy 3: when there are more `\x7b` than `\x7d`, append the missing
closing braces; if that does not parse (or braces are balanced), do the same
for square brackets. -/
def strat3 (cs : List Char) : Option (List Char) :=
  let braceCand : List (List Char) :=
    if cs.count '}' < cs.count '{' then
      [cs ++ List.replicate (cs.count '{' - cs.count '}') '}'] else []
  let brackCand : List (List Char) :=
    if cs.count ']' < cs.count '[' then
      [cs ++ List.replicate (cs.count '[' - cs.count ']') ']'] else []
  firstParsing (braceCand ++ brackCand)

/-- Position test of repair strategy 4: any bracket-type transition
`\x7d\x7b`, `][`, `\x7d[` or `]\x7b`. -/
def isTransPos (cs : List Char) (i : Nat) : Bool :=
  (cs[i]? == some '}' && cs[i + 1]? == some '{') ||
  (cs[i]? == some ']' && cs[i + 1]? == some '[') ||
  (cs[i]? == some '}' && cs[i + 1]? == some '[') ||
  (cs[i]? == some ']' && cs[i + 1]? == some '{')

/-- Repair strategy 4: insert a comma after the first bracket-type transition
whose edit parses, scanning positions left to right. -/
def strat4 (cs : List Char) : Option (List Char) :=
  firstParsing
    (((List.range cs.length).filter (isTransPos cs)).map
      (fun i => insertCommaAt cs (i + 1)))

/-- Start index of the last occurrence of `\x7d\x7d`, mirroring Python
`json_str.rfind("\x7d\x7d")`. -/
def rfindBraces (cs : List Char) : Option Nat :=
  ((List.range cs.length).filter
    (fun i => cs[i]? == some '}' && cs[i + 1]? == some '}')).getLast?

/-- Repair strategy 5 (truncation recovery): truncate after the last complete
`\x7d\x7d` (required at index above zero, per the source's `> 0` test) and append
`]\x7d`; keep the result only if it parses. -/
def strat5 (cs : List Char) : Option (List Char) :=
  match rfindBraces cs with
  | some k =>
    if 0 < k then firstParsing [cs.take (k + 2) ++ [']', '}']] else Option.none
  | Option.none => Option.none

/-- Model of `AIConnector._fix_json` on character lists: the five repair
strategies tried in source order, stopping at the first whose result parses;
when none succeeds the input is returned unchanged. -/
def fixJsonL (cs : List Char) : List Char :=
  match strat1 cs with
  | some f => f
  | Option.none =>
    match strat2 cs with
    | some f => f
    | Option.none =>
      match strat3 cs with
      | some f => f
      | Option.none =>
        match strat4 cs with
        | some f => f
        | Option.none =>
          match strat5 cs with
          | some f => f
          | Option.none => cs

/-- Model of `AIConnector._fix_json` on strings. -/
def fixJson (s : String) : String :=
  String.mk (fixJsonL s.toList)

example : fixJson "\x7b\"a\":1" = "\x7b\"a\":1\x7d" := by rfl
example : fixJson "\x7b\"a\":\"\x7d\x7b\"" = "\x7b\"a\":\"\x7d\x7b\"\x7d" := by rfl
example : fixJson "\x7b\"a\":\"\x7d\x7b\"\x7d" = "\x7b\"a\":\"\x7d,\x7b\"\x7d" := by rfl
example : fixJson "[\x7b\"a\":1\x7d,  ]" = "[\x7b\"a\":1\x7d   ]" := by rfl
example : fixJson "[\x7b\x7d\x7b\x7d]" = "[\x7b\x7d,\x7b\x7d]" := by rfl
example : fixJson "nonsense" = "nonsense" := by rfl

/-- Title keyword list of `StructureAnalyzer.__init__` (verbatim). -/
def titleKeywords : List String :=
  ["标题", "题目", "标题：", "题目：", "title", "subject"]

/-- Abstract keyword list of `StructureAnalyzer.__init__` (verbatim). -/
def abstractKeywords : List String :=
  ["摘要", "摘 要", "摘要：", "abstract", "summary"]

/-- Keywords-section keyword list of `StructureAnalyzer.__init__` (verbatim). -/
def keywordsKeywords : List String :=
  ["KeyWord", "KeyWord：", "关 键 Word", "keywords", "key words"]

/-- References keyword list of `StructureAnalyzer.__init__` (verbatim). -/
def referencesKeywords : List String :=
  ["参考Document献", "参考Document献：", "引用Document献", "references", "bibliography"]

/-- The terminal-punctuation character string tested by the analyzer, taken
verbatim from the source literal used in `any(p in paragraph for p in ...)`. -/
def punctChars : String := ".!?;,uff0cuff01uff1fuff1bu3002"

/-- Whether a paragraph contains any character of the punctuation literal
(`any(p in paragraph for p in punctChars)`). -/
def containsPunct (p : String) : Bool :=
  punctChars.toList.any (fun c => p.toList.contains c)

/-- Whether some keyword of the list occurs in the lowercased paragraph
(`keyword in paragraph.lower()`). -/
def matchesKwList (kws : List String) (p : String) : Bool :=
  kws.any (fun k => pyIn k (pyLower p))

/-- Model of `StructureAnalyzer._is_potential_title`: paragraphs above 50
characters are rejected outright; then first-paragraph-under-30, title
keywords, and short-without-punctuation are tried in order.  The
`total_paragraphs` argument is kept from the source signature (unused there
as well). -/
def isPotentialTitle (p : String) (index : Nat) (total : Nat) : Bool :=
  if 50 < p.length then false
  else if index == 0 && p.length < 30 then true
  else if matchesKwList titleKeywords p then true
  else if p.length < 20 && !containsPunct p then true
  else false

/-- ASCII decimal digit (the `\d` class for the analysed inputs). -/
def isDigitCh (c : Char) : Bool := '0' ≤ c && c ≤ '9'

/-- Consume `\d+\.`: at least one digit then a literal dot. -/
def dropNumDot : List Char → Option (List Char)
  | c :: t =>
    if isDigitCh c then
      match t.dropWhile isDigitCh with
      | '.' :: u => some u
      | _ => Option.none
    else Option.none
  | [] => Option.none

/-- Tail matcher for `\s*.+` (also the residual of `\s+.+` after its first
whitespace): scanning forward, the pattern matches exactly when a
non-newline character is reachable, where only newline characters (which are
whitespace, hence extend `\s*`) may be stepped over — this reproduces the
backtracking semantics of Python `re`. -/
def wsAnyAux : List Char → Bool
  | [] => false
  | c :: t => if c != '\n' then true else wsAnyAux t

/-- Matcher for `\s+.+` with `re` backtracking semantics: one whitespace
character, then `wsAnyAux`. -/
def wsThenAny : List Char → Bool
  | [] => false
  | c :: t => isSpacePy c && wsAnyAux t

/-- CJK unified ideograph range `[一-龥]` of the fourth pattern. -/
def isCJK (c : Char) : Bool := 0x4e00 ≤ c.toNat && c.toNat ≤ 0x9fa5

/-- Model of `re.match` for the seven `numeric_title_patterns` of the
analyzer: `1.`, `1.1.`, `1.1.1.` headings, a CJK enumerator followed by a
CJK separator, `(1)`, `A.` and `a.` headings, each followed by whitespace
and at least one further character. -/
def numericTitleMatch (p : String) : Bool :=
  let cs := p.toList
  let p1 := (dropNumDot cs).elim false wsThenAny
  let p2 := ((dropNumDot cs).bind dropNumDot).elim false wsThenAny
  let p3 := (((dropNumDot cs).bind dropNumDot).bind dropNumDot).elim false wsThenAny
  let p4 :=
    match cs with
    | c :: t =>
      isCJK c &&
        (let rest := t.dropWhile isCJK
         let rest2 := rest.dropWhile isSpacePy
         match rest2 with
         | s :: u =>
           (s == '、' || s == '，' || s == '：') && wsAnyAux u
         | [] => false)
    | [] => false
  let p5 :=
    match cs with
    | '(' :: t =>
      (match t.dropWhile isDigitCh, t with
       | ')' :: u, d :: _ => isDigitCh d && wsThenAny u
       | _, _ => false)
    | _ => false
  let p6 :=
    match cs with
    | c :: '.' :: t => ('A' ≤ c && c ≤ 'Z') && wsThenAny t
    | _ => false
  let p7 :=
    match cs with
    | c :: '.' :: t => ('a' ≤ c && c ≤ 'z') && wsThenAny t
    | _ => false
  p1 || p2 || p3 || p4 || p5 || p6 || p7

/-- Model of `StructureAnalyzer._is_potential_subtitle`: a numbered-heading
pattern match, or a sub-30-character paragraph that is not the last one and
has no terminal punctuation. -/
def isPotentialSubtitle (p : String) (index : Nat) (total : Nat) : Bool :=
  if numericTitleMatch p then true
  else if p.length < 30 && index < total - 1 then !containsPunct p
  else false

/-- The features record built by `analyze_text_features`.  `min_length`
starts at Python's `float('inf')`, modelled by `Option.none`; `avg_length`
is the exact rational value of the float division `total / count`. -/
structure Features where
  paragraph_lengths : List Nat
  potential_titles : List Nat
  potential_subtitles : List Nat
  special_abstract : Option Nat
  special_keywords : Option Nat
  special_references : Option Nat
  total_length : Nat
  avg_length : ℚ
  max_length : Nat
  min_length : Option Nat

/-- Initial features value of `analyze_text_features`. -/
def initFeatures : Features :=
  ⟨[], [], [], Option.none, Option.none, Option.none, 0, 0, 0, Option.none⟩

/-- Running minimum against the `float('inf')`-seeded field. -/
def minInf (m : Option Nat) (n : Nat) : Option Nat :=
  match m with
  | Option.none => some n
  | some x => some (min x n)

/-- Model of `StructureAnalyzer._detect_special_sections`: the three keyword
lists are tried in order (abstract, keywords, references) with an early
return, and a hit assigns the current index unconditionally, overwriting any
previously recorded index for that section. -/
def detectSpecialSections (p : String) (i : Nat) (f : Features) : Features :=
  if matchesKwList abstractKeywords p then { f with special_abstract := some i }
  else if matchesKwList keywordsKeywords p then { f with special_keywords := some i }
  else if matchesKwList referencesKeywords p then { f with special_references := some i }
  else f

/-- One iteration of the `analyze_text_features` loop: blank paragraphs are
skipped; otherwise the length statistics, the title/subtitle candidates
(subtitle only checked when the title check failed) and the special sections
are updated. -/
def analyzeStep (total : Nat) (i : Nat) (p : String) (f : Features) : Features :=
  if isBlankPara p then f
  else
    let len := p.length
    let f1 : Features :=
      { f with
        paragraph_lengths := f.paragraph_lengths ++ [len]
        total_length := f.total_length + len
        max_length := max f.max_length len
        min_length := minInf f.min_length len }
    let f2 : Features :=
      if isPotentialTitle p i total then
        { f1 with potential_titles := f1.potential_titles ++ [i] }
      else if isPotentialSubtitle p i total then
        { f1 with potential_subtitles := f1.potential_subtitles ++ [i] }
      else f1
    detectSpecialSections p i f2

/-- The enumerated loop of `analyze_text_features`. -/
def analyzeAux (total : Nat) : Nat → List String → Features → Features
  | _, [], f => f
  | i, p :: rest, f => analyzeAux total (i + 1) rest (analyzeStep total i p f)

/-- Model of `StructureAnalyzer.analyze_text_features`.  The source returns
an empty dict for an empty paragraph list (modelled as `Option.none`);
otherwise it runs the loop and finally sets `avg_length` to
`total_length / len(paragraph_lengths)` when any non-blank paragraph was
seen. -/
def analyzeTextFeatures (ps : List String) : Option Features :=
  if ps.isEmpty then Option.none
  else
    let f := analyzeAux ps.length 0 ps initFeatures
    if f.paragraph_lengths.isEmpty then some f
    else some { f with avg_length := mkRat f.total_length f.paragraph_lengths.length }

/-- Python `key in container` for the containers that support it (`dict`
membership, substring test on `str`, element equality on `list`); `none`
models the `TypeError` raised by other types. -/
def pyContains (v : PyVal) (k : String) : Option Bool :=
  match v with
  | .dict d => some (dictHas d k)
  | .str s => some (pyIn k s)
  | .list l => some (l.any (fun e => match e with | .str s => s == k | _ => false))
  | _ => Option.none

/-- Python `container[key]` for a string key; `none` models the raised
`TypeError`/`KeyError` of every non-dict container or missing key. -/
def pyGetItem (v : PyVal) (k : String) : Option PyVal :=
  match v with
  | .dict d => dictGet d k
  | _ => Option.none

/-- Python `container[key] = value`; `none` models the `TypeError` of
non-dict containers. -/
def pySetItem (v : PyVal) (k : String) (x : PyVal) : Option PyVal :=
  match v with
  | .dict d => some (.dict (dictSet d k x))
  | _ => Option.none

/-- Python `for element in v`: lists yield elements, strings yield one-char
strings, dicts yield their keys; other values raise (`none`). -/
def pyIterate (v : PyVal) : Option (List PyVal) :=
  match v with
  | .list l => some l
  | .str s => some (s.toList.map (fun c => .str (String.mk [c])))
  | .dict d => some (d.map (fun kv => .str kv.1))
  | _ => Option.none

/-- The default format record inserted by `validate_structure` for an
element missing `format` entirely (font 宋体, size 五Number, line spacing 1.5). -/
def defaultFormatRecord : PyVal :=
  .dict [("font", .str "宋体"), ("size", .str "五Number"),
         ("line_spacing", .float (mkRat 3 2))]

/-- The element loop of `validate_structure`: each element is processed in
order, an exception (`none`) at any element aborting the whole call. -/
def mapOption (f : PyVal → Option PyVal) : List PyVal → Option (List PyVal)
  | [] => some []
  | e :: t =>
    match f e with
    | Option.none => Option.none
    | some b =>
      match mapOption f t with
      | Option.none => Option.none
      | some bs => some (b :: bs)

/-- The `if k not in element: element[k] = dflt` step of
`validate_structure`; `none` models a raise (membership test or assignment
on an unsupported container). -/
def ensureKey (e : PyVal) (k : String) (dflt : PyVal) : Option PyVal :=
  match pyContains e k with
  | Option.none => Option.none
  | some true => some e
  | some false => pySetItem e k dflt

/-- Per-element backfill of `validate_structure`: default type `正Document`,
default empty content, and the full default format record — each inserted
only when the corresponding key is missing entirely. -/
def validateElement (e : PyVal) : Option PyVal :=
  (ensureKey e "type" (.str "正Document")).bind fun e1 =>
  (ensureKey e1 "content" (.str "")).bind fun e2 =>
  ensureKey e2 "format" defaultFormatRecord

/-- Model of `StructureAnalyzer.validate_structure`: fails (returns
`(False, structure)`) when the structure is falsy, lacks `elements`, or its
`elements` value is falsy; otherwise iterates the elements backfilling
missing keys and returns `(True, updated structure)`.  `Option.none` models
an uncaught exception of the dynamic code (non-dict structure whose
membership test raises, non-iterable elements, or an element that cannot be
key-tested/assigned). -/
def validateStructure (stru : PyVal) : Option (Bool × PyVal) :=
  if !pyTruthy stru then some (false, stru)
  else
    match pyContains stru "elements" with
    | Option.none => Option.none
    | some false => some (false, stru)
    | some true =>
      match pyGetItem stru "elements" with
      | Option.none => Option.none
      | some elems =>
        if !pyTruthy elems then some (false, stru)
        else
          match elems with
          | .list items =>
            match mapOption validateElement items with
            | Option.none => Option.none
            | some items' =>
              some (true, (pySetItem stru "elements" (.list items')).getD stru)
          | _ =>
            match pyIterate elems with
            | Option.none => Option.none
            | some items =>
              if (mapOption validateElement items).isSome then some (true, stru)
              else Option.none

/-- Named line-spacing rules of the output document format
(`WD_LINE_SPACING`). -/
inductive SpacingRule where
  | single : SpacingRule
  | onePointFive : SpacingRule
  | double : SpacingRule
deriving DecidableEq

/-- Paragraph alignments of the output document format. -/
inductive Align where
  | left : Align
  | center : Align
  | right : Align
  | justify : Align
deriving DecidableEq

/-- Numeric view of a Python value under `isinstance(x, (int, float))`
(which also admits `bool`, a subclass of `int`). -/
def pyNumVal : PyVal → Option ℚ
  | .int n => some (mkRat n 1)
  | .float q => some q
  | .bool b => some (if b then 1 else 0)
  | _ => Option.none

/-- Decides `c - 1/10 < x < c + 1/10` given the two precomputed bounds; this
is exactly `abs(x - c) < 0.1` (see `nearTenth_eq_abs`), stated with bounds
because rational subtraction is irreducible in this toolchain and the
definition must stay kernel-evaluable. -/
def nearTenth (x lo hi : ℚ) : Bool :=
  lo < x && x < hi

/-- Bridge between the bound form and the source's `abs(x - c) < 0.1`. -/
theorem nearTenth_eq_abs (x c : ℚ) :
    nearTenth x (c - 1/10) (c + 1/10) = decide (|x - c| < 1/10) := by
  simp only [nearTenth]
  have hb : (decide (c - 1/10 < x) && decide (x < c + 1/10)) =
      decide ((c - 1/10 < x) ∧ x < c + 1/10) := by
    by_cases h1 : c - 1/10 < x <;> by_cases h2 : x < c + 1/10 <;> simp [h1, h2]
  rw [hb, decide_eq_decide, abs_sub_lt_iff]
  constructor
  · rintro ⟨h1, h2⟩
    exact ⟨by linarith, by linarith⟩
  · rintro ⟨h1, h2⟩
    exact ⟨by linarith, by linarith⟩

/-- The line-spacing classification of `_apply_paragraph_format`: multipliers
outside `0.8 .. 3.0` are reset to `1.5` with a warning; then values within
`0.1` of `1.0`, `1.5` and `2.0` (in that order) select single, 1.5× and
double spacing, and everything else defaults to 1.5×.  The bounds `9/10`,
`11/10`, ... are the unfolded `abs(x - c) < 0.1` tests (`nearTenth`). -/
def classifyLineSpacing (x0 : ℚ) : SpacingRule × Bool :=
  let warned := 3 < x0 || x0 < mkRat 4 5
  let x := if 3 < x0 || x0 < mkRat 4 5 then mkRat 3 2 else x0
  if nearTenth x (mkRat 9 10) (mkRat 11 10) then (.single, warned)
  else if nearTenth x (mkRat 14 10) (mkRat 16 10) then (.onePointFive, warned)
  else if nearTenth x (mkRat 19 10) (mkRat 21 10) then (.double, warned)
  else (.onePointFive, warned)

/-- The named Chinese font-size scale of `DocProcessor.__init__`, in points. -/
def fontSizeMapping : List (String × ℚ) :=
  [("Small二", 18), ("三Number", 16), ("Small三", 15), ("四Number", 14),
   ("Small四", 12), ("五Number", mkRat 21 2), ("Small五", 9), ("六Number", mkRat 15 2)]

/-- Assoc-list lookup for the font-size scale. -/
def sizeLookup : List (String × ℚ) → String → Option ℚ
  | [], _ => Option.none
  | (k', v) :: t, k => if k' = k then some v else sizeLookup t k

/-- The canonical font aliases of `_apply_font` (`safe_fonts`). -/
def safeFonts : List (String × String) :=
  [("宋体", "SimSun"), ("Black体", "SimHei"), ("楷体", "KaiTi"), ("仿宋", "FangSong")]

/-- Assoc-list lookup for the font aliases. -/
def fontLookup : List (String × String) → String → Option String
  | [], _ => Option.none
  | (k', v) :: t, k => if k' = k then some v else fontLookup t k

/-- Font resolution of `_apply_font`: a string font name is looked up in the
alias table and passed through verbatim when unmapped; non-string values are
passed through unchanged (Python `dict.get(key, key)`). -/
def resolveFont : PyVal → PyVal
  | .str s => .str ((fontLookup safeFonts s).getD s)
  | v => v

/-- One output paragraph as constructed by `_process_element`: its run
content, element type, and the typography recorded by `_apply_font` and
`_apply_paragraph_format` (fields the source leaves unset are `none`). -/
structure Paragraph where
  content : PyVal
  elemType : PyVal
  fontName : PyVal
  fontSize : Option ℚ
  bold : PyVal
  italic : PyVal
  underline : PyVal
  spacing : Option (SpacingRule × Bool)
  alignment : Align
  firstLineIndent : Option ℚ
  spaceBefore : ℚ
  spaceAfter : ℚ

/-- Spacing field computed by `_apply_paragraph_format`: only numeric
multipliers set a rule. -/
def spacingOf (fmt : List (String × PyVal)) : Option (SpacingRule × Bool) :=
  (pyNumVal ((dictGet fmt "line_spacing").getD (.float (mkRat 3 2)))).map
    classifyLineSpacing

/-- Alignment resolution of `_apply_paragraph_format`: unrecognised or
non-string values default to left. -/
def alignOf (fmt : List (String × PyVal)) : Align :=
  match (dictGet fmt "alignment").getD (.str "left") with
  | .str "center" => .center
  | .str "right" => .right
  | .str "justify" => .justify
  | _ => .left

/-- First-line-indent resolution of `_apply_paragraph_format`: an explicit
numeric value is honoured only inside `0 .. 50` points (out-of-range numeric
values leave no indent at all); absent or non-numeric values give body-type
elements (`正Document`) the fixed 21-point default and all others none. -/
def indentOf (fmt : List (String × PyVal)) (etype : PyVal) : Option ℚ :=
  match pyNumVal ((dictGet fmt "first_line_indent").getD .none) with
  | some q => if 0 ≤ q ∧ q ≤ 50 then some q else Option.none
  | Option.none =>
    match etype with
    | .str s => if s == "正Document" then some 21 else Option.none
    | _ => Option.none

/-- The paragraph built for one element: run content, font application
(`_apply_font`: alias-resolved name, named-scale size only when recognised,
bold/italic/underline defaulting to false) and paragraph format
(`_apply_paragraph_format`: spacing classification, alignment, first-line
indent, and both paragraph spacings forced to zero). -/
def mkParagraph (content etype : PyVal) (fmt : List (String × PyVal)) : Paragraph :=
  { content := content
    elemType := etype
    fontName := resolveFont ((dictGet fmt "font").getD (.str "宋体"))
    fontSize :=
      match (dictGet fmt "size").getD (.str "Small四") with
      | .str s => sizeLookup fontSizeMapping s
      | _ => Option.none
    bold := (dictGet fmt "bold").getD (.bool false)
    italic := (dictGet fmt "italic").getD (.bool false)
    underline := (dictGet fmt "underline").getD (.bool false)
    spacing := spacingOf fmt
    alignment := alignOf fmt
    firstLineIndent := indentOf fmt etype
    spaceBefore := 0
    spaceAfter := 0 }

/-- Python slicing support for the `content[:50]` preview taken before the
paragraph is created (strings and lists slice; other values raise). -/
def pySliceable : PyVal → Bool
  | .str _ => true
  | .list _ => true
  | _ => false

/-- Model of `DocProcessor._process_element`.  `none` means no paragraph was
appended to the document: the source returns early for non-dict elements,
and a non-sliceable `content` raises during the preview `content[:50]`
before `doc.add_paragraph()` runs; every later per-attribute failure is
swallowed inside its own `try`, so a dict element with sliceable content
always contributes exactly one (possibly partial) paragraph. -/
def processElement (e : PyVal) : Option Paragraph :=
  match e with
  | .dict d =>
    let content := (dictGet d "content").getD (.str "")
    if pySliceable content then
      let etype := (dictGet d "type").getD (.str "正Document")
      let fmt :=
        match (dictGet d "format").getD (.dict []) with
        | .dict f => f
        | _ => []
      some (mkParagraph content etype fmt)
    else Option.none
  | _ => Option.none

/-- The batched element loop of `apply_formatting` (`batch_size = 10`),
with fuel equal to the list length (each batch consumes at least one
element). -/
def processBatchesAux : Nat → List PyVal → List Paragraph
  | 0, _ => []
  | _, [] => []
  | Nat.succ fuel, e :: es =>
    ((e :: es).take 10).filterMap processElement ++
      processBatchesAux fuel ((e :: es).drop 10)

/-- Batched processing of the whole instruction list. -/
def processBatches (es : List PyVal) : List Paragraph :=
  processBatchesAux es.length es

/-- Model of the document-construction core of `DocProcessor.apply_formatting`
(the surrounding backup/save file I/O is outside the model): non-dict
instruction payloads and non-list `elements` values are rejected, otherwise
the elements are processed in fixed-size batches into the new document's
paragraph list. -/
def applyFormatting (instructions : PyVal) : Option (List Paragraph) :=
  match instructions with
  | .dict d =>
    match (dictGet d "elements").getD (.list []) with
    | .list es => some (processBatches es)
    | _ => Option.none
  | _ => Option.none

/-- Content extraction of `parse_response`:
`response.get("choices", [\x7b\x7d])[0].get("message", \x7b\x7d).get("content", "")`,
followed by the `if not content` check.  `none` covers every failure path
(non-dict response, empty or non-list `choices`, non-dict first choice or
`message`, falsy or non-string content — a non-string raises later at
`content.find`). -/
def extractContent (response : PyVal) : Option String :=
  match response with
  | .dict d =>
    match (dictGet d "choices").getD (.list [.dict []]) with
    | .list (first :: _) =>
      (match first with
       | .dict fd =>
         (match (dictGet fd "message").getD (.dict []) with
          | .dict md =>
            (match (dictGet md "content").getD (.str "") with
             | .str s => if s.isEmpty then Option.none else some s
             | _ => Option.none)
          | _ => Option.none)
       | _ => Option.none)
    | _ => Option.none
  | _ => Option.none

/-- Index of the last `\x7d` in the content, mirroring `content.rfind('\x7d')`. -/
def lastBraceIdx (cs : List Char) : Option Nat :=
  ((List.range cs.length).filter (fun i => cs[i]? == some '}')).getLast?

/-- Payload extraction of `parse_response`: `content.find('\x7b')` to
`content.rfind('\x7d')` inclusive; `none` when either brace is absent (the
source then fails with "no valid JSON content found").  When the last `\x7d`
precedes the first `\x7b` the Python slice is empty, as modelled. -/
def extractSpan (s : String) : Option String :=
  match List.findIdx? (fun c => c == '{') s.toList, lastBraceIdx s.toList with
  | some a, some b => some (String.mk ((s.toList.drop a).take (b + 1 - a)))
  | _, _ => Option.none

/-- Strict parse followed by the `_fix_json` retry, as in `parse_response`:
`json.loads(json_content)` and, on failure, `json.loads(_fix_json(json_content))`. -/
def loadsOrRepair (s : String) : Option PyVal :=
  match jsonLoads s with
  | some v => some v
  | Option.none => jsonLoads (fixJson s)

/-- Per-element check of `parse_response`: the element must be a dict holding
`type`, `content` and `format` keys. -/
def checkElement (e : PyVal) : Bool :=
  match e with
  | .dict d => dictHas d "type" && dictHas d "content" && dictHas d "format"
  | _ => false

/-- Structural checks of `parse_response` after a successful parse: the
payload must be a dict with an `elements` list whose every element passes
`checkElement`; any violation rejects the whole response. -/
def checkInstructions (v : PyVal) : Option PyVal :=
  match v with
  | .dict d =>
    match dictGet d "elements" with
    | some (.list es) => if es.all checkElement then some v else Option.none
    | some _ => Option.none
    | Option.none => Option.none
  | _ => Option.none

/-- The extraction-plus-parse stage of `parse_response` on the content
string. -/
def parsedPayload (content : String) : Option PyVal :=
  (extractSpan content).bind loadsOrRepair

/-- Model of `AIConnector.parse_response`: content extraction, brace-span
extraction, strict parse with repair retry, and structural checks.  `none`
models every `(False, error message)` return of the source. -/
def parseResponse (response : PyVal) : Option PyVal :=
  (extractContent response).bind fun content =>
  (parsedPayload content).bind checkInstructions

/-- A response value shaped like a successful chat completion carrying the
given content, used to drive `parse_response` from a raw text. -/
def mkResponse (content : String) : PyVal :=
  .dict [("choices", .list [.dict [("message", .dict [("content", .str content)])]])]

/-- Modelled from the spec (claim C3 wording): scan for the first top-level
balanced brace span tracking nesting depth character by character; this is
the specification-side extractor, used only to exhibit its divergence from
`parse_response`.  The depth counter is an integer, so an early unmatched
`\x7d` can drive it negative exactly as in the described scan. -/
def balancedScanAux : List Char → Nat → Int → Option Nat → Option (Nat × Nat)
  | [], _, _, _ => Option.none
  | c :: t, i, depth, st =>
    if c == '{' then
      balancedScanAux t (i + 1) (depth + 1) (if depth == 0 then some i else st)
    else if c == '}' then
      (if depth - 1 == 0 then
        match st with
        | some s => some (s, i)
        | Option.none => balancedScanAux t (i + 1) (depth - 1) st
       else balancedScanAux t (i + 1) (depth - 1) st)
    else balancedScanAux t (i + 1) depth st

/-- Modelled from the spec (claim C3 wording): extraction never fails — the
first balanced brace span if one exists, else the outermost `\x7b...\x7d` span or
fenced content, else the entire raw text for a final parse attempt.  (The
fenced-block branch is irrelevant to the exhibited divergence and is
subsumed here by the whole-text fallback.) -/
def claimedExtract (s : String) : String :=
  match balancedScanAux s.toList 0 0 Option.none with
  | some (a, b) => String.mk ((s.toList.drop a).take (b + 1 - a))
  | Option.none =>
    match List.findIdx? (fun c => c == '{') s.toList, lastBraceIdx s.toList with
    | some a, some b => String.mk ((s.toList.drop a).take (b + 1 - a))
    | _, _ => s

example : parseResponse (mkResponse "\x7b\"elements\": [\x7b\"type\": \"t\", \"content\": \"c\", \"format\": \x7b\x7d\x7d]\x7d") =
    some (.dict [("elements", .list [.dict [("type", .str "t"), ("content", .str "c"), ("format", .dict [])]])]) := by rfl
example : parseResponse (mkResponse "no json here") = Option.none := by rfl
example : parseResponse (mkResponse "xx\x7b\"elements\": []\x7d yy\x7d") = Option.none := by rfl
example : claimedExtract "xx\x7b\"elements\": []\x7d yy\x7d" = "\x7b\"elements\": []\x7d" := by rfl
example : parseResponse (mkResponse "\x7b\"elements\": [\x7b\"type\": \"t\", \"content\": \"c\"\x7d]\x7d") = Option.none := by rfl

theorem firstParsing_isSome :
    ∀ l f, firstParsing l = some f → (jsonLoadsL f).isSome = true := by
  intro l
  induction l with
  | nil => intro f h; simp [firstParsing] at h
  | cons c t ih =>
    intro f h
    by_cases hc : (jsonLoadsL c).isSome = true
    · simp [firstParsing, hc] at h
      exact h ▸ hc
    · simp [firstParsing, hc] at h
      exact ih f h

theorem strat_parses (cs : List Char) (f : List Char) :
    strat1 cs = some f ∨ strat2 cs = some f ∨ strat3 cs = some f ∨
      strat4 cs = some f ∨ strat5 cs = some f →
    (jsonLoadsL f).isSome = true := by
  intro h
  rcases h with h | h | h | h | h
  · exact firstParsing_isSome _ f h
  · exact firstParsing_isSome _ f h
  · exact firstParsing_isSome _ f h
  · exact firstParsing_isSome _ f h
  · unfold strat5 at h
    rcases hk : rfindBraces cs with _ | k
    · rw [hk] at h; exact absurd h (by simp)
    · rw [hk] at h
      dsimp only at h
      by_cases h0 : 0 < k
      · rw [if_pos h0] at h
        exact firstParsing_isSome _ f h
      · rw [if_neg h0] at h
        exact absurd h (by simp)

theorem fixJsonL_eq_or_parses (cs : List Char) :
    fixJsonL cs = cs ∨ (jsonLoadsL (fixJsonL cs)).isSome = true := by
  unfold fixJsonL
  rcases h1 : strat1 cs with _ | f1
  · rcases h2 : strat2 cs with _ | f2
    · rcases h3 : strat3 cs with _ | f3
      · rcases h4 : strat4 cs with _ | f4
        · rcases h5 : strat5 cs with _ | f5
          · exact Or.inl rfl
          · exact Or.inr (strat_parses cs f5 (by tauto))
        · exact Or.inr (strat_parses cs f4 (by tauto))
      · exact Or.inr (strat_parses cs f3 (by tauto))
    · exact Or.inr (strat_parses cs f2 (by tauto))
  · exact Or.inr (strat_parses cs f1 (by tauto))

theorem toList_mk (l : List Char) : (String.mk l).toList = l := rfl

theorem jsonLoads_mk (l : List Char) : jsonLoads (String.mk l) = jsonLoadsL l := rfl

theorem fixJson_eq_or_parses (s : String) :
    fixJson s = s ∨ (jsonLoads (fixJson s)).isSome = true := by
  rcases fixJsonL_eq_or_parses s.toList with h | h
  · left
    show String.mk (fixJsonL s.toList) = s
    rw [h]
    rfl
  · right
    show (jsonLoads (String.mk (fixJsonL s.toList))).isSome = true
    rw [jsonLoads_mk]
    exact h

theorem dictGet_dictSet_self (d : List (String × PyVal)) (k : String) (v : PyVal) :
    dictGet (dictSet d k v) k = some v := by
  induction d with
  | nil => simp [dictSet, dictGet]
  | cons kv t ih =>
    by_cases h : kv.1 = k
    · simp [dictSet, h, dictGet]
    · simp [dictSet, h, dictGet, ih]

theorem processBatchesAux_eq (fuel : Nat) :
    ∀ es : List PyVal, es.length ≤ fuel →
      processBatchesAux fuel es = es.filterMap processElement := by
  induction fuel with
  | zero =>
    intro es h
    have : es = [] := List.length_eq_zero.mp (Nat.le_zero.mp h)
    subst this
    rfl
  | succ fuel ih =>
    intro es h
    match es with
    | [] => rfl
    | e :: es' =>
      show ((e :: es').take 10).filterMap processElement ++
          processBatchesAux fuel ((e :: es').drop 10) = _
      rw [ih ((e :: es').drop 10)
        (by simpa using Nat.le_trans (Nat.sub_le _ _) (Nat.le_of_succ_le_succ (by simpa using h)))]
      rw [← List.filterMap_append, List.take_append_drop]

theorem processBatches_eq (es : List PyVal) :
    processBatches es = es.filterMap processElement :=
  processBatchesAux_eq es.length es (Nat.le_refl _)

theorem length_filterMap_eq (es : List PyVal) :
    (es.filterMap processElement).length =
      (es.filter (fun e => (processElement e).isSome)).length := by
  induction es with
  | nil => rfl
  | cons e t ih =>
    rcases h : processElement e with _ | p
    · simpa [List.filterMap_cons, List.filter_cons, h] using ih
    · simpa [List.filterMap_cons, List.filter_cons, h] using ih

/-- Type backfill step of `validate_structure` on a dict element. -/
def fixType (d : List (String × PyVal)) : List (String × PyVal) :=
  if dictHas d "type" then d else dictSet d "type" (.str "正Document")

/-- Content backfill step of `validate_structure` on a dict element. -/
def fixContent (d : List (String × PyVal)) : List (String × PyVal) :=
  if dictHas d "content" then d else dictSet d "content" (.str "")

/-- Format backfill step of `validate_structure` on a dict element: the full
default record is inserted only when `format` is missing entirely. -/
def fixFormat (d : List (String × PyVal)) : List (String × PyVal) :=
  if dictHas d "format" then d else dictSet d "format" defaultFormatRecord

/-- The per-element rewriting `validate_structure` performs on a dict
element. -/
def fixElemDict (d : List (String × PyVal)) : List (String × PyVal) :=
  fixFormat (fixContent (fixType d))

theorem ensureKey_dict (d : List (String × PyVal)) (k : String) (v : PyVal) :
    ensureKey (.dict d) k v =
      some (.dict (if dictHas d k then d else dictSet d k v)) := by
  unfold ensureKey pyContains pySetItem
  by_cases h : dictHas d k <;> simp [h]

theorem validateElement_dict (d : List (String × PyVal)) :
    validateElement (.dict d) = some (.dict (fixElemDict d)) := by
  unfold validateElement fixElemDict fixType fixContent fixFormat
  rw [ensureKey_dict, Option.some_bind, ensureKey_dict, Option.some_bind, ensureKey_dict]

theorem dictGet_dictSet_ne (d : List (String × PyVal)) (k k' : String) (v : PyVal)
    (h : k ≠ k') : dictGet (dictSet d k' v) k = dictGet d k := by
  induction d with
  | nil =>
    simp [dictSet, dictGet, Ne.symm h]
  | cons kv t ih =>
    rcases kv with ⟨k0, v0⟩
    simp only [dictSet]
    by_cases hk : k0 = k'
    · simp [hk, dictGet, Ne.symm h]
    · simp only [if_neg hk, dictGet]
      by_cases he : k0 = k
      · simp [he]
      · simp [he, ih]

theorem dictHas_dictSet (d : List (String × PyVal)) (k k' : String) (v : PyVal) :
    dictHas (dictSet d k' v) k = (k = k' || dictHas d k) := by
  by_cases h : k = k'
  · subst h
    simp [dictHas, dictGet_dictSet_self]
  · simp [dictHas, dictGet_dictSet_ne d k k' v h, h]

theorem dictHas_fixType (d : List (String × PyVal)) (k : String) :
    dictHas (fixType d) k = (dictHas d k || (k = "type" : Bool)) := by
  unfold fixType
  by_cases h : dictHas d "type"
  · rw [if_pos h]
    by_cases hk : k = "type" <;> simp [hk, h]
  · rw [if_neg h]
    rw [dictHas_dictSet]
    by_cases hk : k = "type" <;> simp [hk, h]

theorem dictHas_fixContent (d : List (String × PyVal)) (k : String) :
    dictHas (fixContent d) k = (dictHas d k || (k = "content" : Bool)) := by
  unfold fixContent
  by_cases h : dictHas d "content"
  · rw [if_pos h]
    by_cases hk : k = "content" <;> simp [hk, h]
  · rw [if_neg h]
    rw [dictHas_dictSet]
    by_cases hk : k = "content" <;> simp [hk, h]

theorem dictHas_fixFormat (d : List (String × PyVal)) (k : String) :
    dictHas (fixFormat d) k = (dictHas d k || (k = "format" : Bool)) := by
  unfold fixFormat
  by_cases h : dictHas d "format"
  · rw [if_pos h]
    by_cases hk : k = "format" <;> simp [hk, h]
  · rw [if_neg h]
    rw [dictHas_dictSet]
    by_cases hk : k = "format" <;> simp [hk, h]

theorem fixElemDict_has (d : List (String × PyVal)) :
    dictHas (fixElemDict d) "type" = true ∧ dictHas (fixElemDict d) "content" = true ∧
      dictHas (fixElemDict d) "format" = true := by
  unfold fixElemDict
  simp [dictHas_fixType, dictHas_fixContent, dictHas_fixFormat]

theorem dictGet_fixType_format (d : List (String × PyVal)) :
    dictGet (fixType d) "format" = dictGet d "format" := by
  unfold fixType
  by_cases h : dictHas d "type"
  · rw [if_pos h]
  · rw [if_neg h, dictGet_dictSet_ne _ _ _ _ (by decide)]

theorem dictGet_fixContent_format (d : List (String × PyVal)) :
    dictGet (fixContent d) "format" = dictGet d "format" := by
  unfold fixContent
  by_cases h : dictHas d "content"
  · rw [if_pos h]
  · rw [if_neg h, dictGet_dictSet_ne _ _ _ _ (by decide)]

theorem fixElemDict_format_default (d : List (String × PyVal))
    (h : dictHas d "format" = false) :
    dictGet (fixElemDict d) "format" = some defaultFormatRecord := by
  unfold fixElemDict fixFormat
  have h2 : dictHas (fixContent (fixType d)) "format" = false := by
    simp [dictHas, dictGet_fixContent_format, dictGet_fixType_format]
    simpa [dictHas] using h
  rw [if_neg (by simp [h2]), dictGet_dictSet_self]

theorem fixElemDict_format_keep (d : List (String × PyVal)) (fv : PyVal)
    (h : dictGet d "format" = some fv) :
    dictGet (fixElemDict d) "format" = some fv := by
  unfold fixElemDict fixFormat
  have h2 : dictGet (fixContent (fixType d)) "format" = some fv := by
    rw [dictGet_fixContent_format, dictGet_fixType_format, h]
  rw [if_pos (by simp [dictHas, h2]), h2]

theorem mapOption_some (f : PyVal → Option PyVal) :
    ∀ l l', mapOption f l = some l' →
      (∀ e ∈ l, (f e).isSome = true) ∧ l' = l.map (fun e => (f e).getD e) := by
  intro l
  induction l with
  | nil =>
    intro l' h
    simp [mapOption] at h
    subst h
    simp
  | cons e t ih =>
    intro l' h
    unfold mapOption at h
    rcases hfe : f e with _ | b
    · rw [hfe] at h; exact absurd h (by simp)
    · rw [hfe] at h
      rcases hft : mapOption f t with _ | bs
      · rw [hft] at h; exact absurd h (by simp)
      · rw [hft] at h
        have := ih bs hft
        refine ⟨?_, ?_⟩
        · intro x hx
          rcases List.mem_cons.mp hx with hx | hx
          · subst hx; simp [hfe]
          · exact this.1 x hx
        · simp only [← Option.some_inj.mp h, List.map_cons, hfe]
          rw [← this.2]
          simp

theorem mapOption_isSome_of_forall (f : PyVal → Option PyVal) :
    ∀ l : List PyVal, (∀ e ∈ l, (f e).isSome = true) →
      (mapOption f l).isSome = true := by
  intro l
  induction l with
  | nil => intro _; rfl
  | cons e t ih =>
    intro h
    have he := h e (by simp)
    rcases hfe : f e with _ | b
    · rw [hfe] at he; simp at he
    · have ht := ih (fun x hx => h x (by simp [hx]))
      rcases hft : mapOption f t with _ | bs
      · rw [hft] at ht; simp at ht
      · simp [mapOption, hfe, hft]

/-- Index of the last paragraph at or after position `i` that is non-blank
and satisfies `pred` (the overwrite semantics of `_detect_special_sections`
expressed directly). -/
def lastMatchFrom (pred : String → Bool) : Nat → List String → Option Nat
  | _, [] => Option.none
  | i, p :: rest =>
    match lastMatchFrom pred (i + 1) rest with
    | some r => some r
    | Option.none => if !isBlankPara p && pred p then some i else Option.none

/-- A paragraph that records the abstract section. -/
def absPred (p : String) : Bool := matchesKwList abstractKeywords p

/-- A paragraph that records the keywords section (the abstract list is
tested first and returns early). -/
def kwPred (p : String) : Bool :=
  !matchesKwList abstractKeywords p && matchesKwList keywordsKeywords p

/-- A paragraph that records the references section (abstract and keywords
lists are tested first and return early). -/
def refPred (p : String) : Bool :=
  !matchesKwList abstractKeywords p && !matchesKwList keywordsKeywords p &&
    matchesKwList referencesKeywords p

theorem detect_special (p : String) (i : Nat) (f : Features) :
    (detectSpecialSections p i f).special_abstract =
        (if absPred p then some i else f.special_abstract)
      ∧ (detectSpecialSections p i f).special_keywords =
        (if kwPred p then some i else f.special_keywords)
      ∧ (detectSpecialSections p i f).special_references =
        (if refPred p then some i else f.special_references)
      ∧ (detectSpecialSections p i f).paragraph_lengths = f.paragraph_lengths
      ∧ (detectSpecialSections p i f).potential_titles = f.potential_titles
      ∧ (detectSpecialSections p i f).potential_subtitles = f.potential_subtitles
      ∧ (detectSpecialSections p i f).total_length = f.total_length
      ∧ (detectSpecialSections p i f).max_length = f.max_length
      ∧ (detectSpecialSections p i f).min_length = f.min_length := by
  unfold detectSpecialSections absPred kwPred refPred
  by_cases h1 : matchesKwList abstractKeywords p
  · simp [h1]
  · by_cases h2 : matchesKwList keywordsKeywords p
    · simp [h1, h2]
    · by_cases h3 : matchesKwList referencesKeywords p <;> simp [h1, h2, h3]

theorem analyzeStep_special (total i : Nat) (p : String) (f : Features) :
    (analyzeStep total i p f).special_abstract =
        (if !isBlankPara p && absPred p then some i else f.special_abstract)
      ∧ (analyzeStep total i p f).special_keywords =
        (if !isBlankPara p && kwPred p then some i else f.special_keywords)
      ∧ (analyzeStep total i p f).special_references =
        (if !isBlankPara p && refPred p then some i else f.special_references) := by
  unfold analyzeStep
  by_cases hb : isBlankPara p
  · simp [hb]
  · by_cases ht : isPotentialTitle p i total <;>
      by_cases hs : isPotentialSubtitle p i total <;>
      simp [hb, ht, hs, detect_special]

theorem analyzeStep_lists (total i : Nat) (p : String) (f : Features) :
    (analyzeStep total i p f).potential_titles =
        f.potential_titles ++
          (if !isBlankPara p && isPotentialTitle p i total then [i] else [])
      ∧ (analyzeStep total i p f).potential_subtitles =
        f.potential_subtitles ++
          (if !isBlankPara p && !isPotentialTitle p i total &&
              isPotentialSubtitle p i total then [i] else []) := by
  unfold analyzeStep
  by_cases hb : isBlankPara p
  · simp [hb]
  · by_cases ht : isPotentialTitle p i total <;>
      by_cases hs : isPotentialSubtitle p i total <;>
      simp [hb, ht, hs, detect_special]

theorem analyzeStep_stats (total i : Nat) (p : String) (f : Features) :
    (analyzeStep total i p f).paragraph_lengths =
        f.paragraph_lengths ++ (if isBlankPara p then [] else [p.length])
      ∧ (analyzeStep total i p f).total_length =
        f.total_length + (if isBlankPara p then 0 else p.length)
      ∧ (analyzeStep total i p f).max_length =
        (if isBlankPara p then f.max_length else max f.max_length p.length)
      ∧ (analyzeStep total i p f).min_length =
        (if isBlankPara p then f.min_length else minInf f.min_length p.length) := by
  unfold analyzeStep
  by_cases hb : isBlankPara p
  · simp [hb]
  · by_cases ht : isPotentialTitle p i total <;>
      by_cases hs : isPotentialSubtitle p i total <;>
      simp [hb, ht, hs, detect_special]

theorem analyzeAux_special (total : Nat) :
    ∀ (ps : List String) (i : Nat) (f : Features),
      ((analyzeAux total i ps f).special_abstract =
        match lastMatchFrom absPred i ps with
        | some r => some r
        | Option.none => f.special_abstract)
      ∧ ((analyzeAux total i ps f).special_keywords =
        match lastMatchFrom kwPred i ps with
        | some r => some r
        | Option.none => f.special_keywords)
      ∧ ((analyzeAux total i ps f).special_references =
        match lastMatchFrom refPred i ps with
        | some r => some r
        | Option.none => f.special_references) := by
  intro ps
  induction ps with
  | nil => intro i f; exact ⟨rfl, rfl, rfl⟩
  | cons p rest ih =>
    intro i f
    obtain ⟨iha, ihk, ihr⟩ := ih (i + 1) (analyzeStep total i p f)
    obtain ⟨hsa, hsk, hsr⟩ := analyzeStep_special total i p f
    refine ⟨?_, ?_, ?_⟩
    · show (analyzeAux total (i + 1) rest (analyzeStep total i p f)).special_abstract = _
      rw [iha, hsa]
      show _ = (match (match lastMatchFrom absPred (i+1) rest with
        | some r => some r
        | Option.none => if !isBlankPara p && absPred p then some i else Option.none) with
        | some r => some r | Option.none => f.special_abstract)
      rcases lastMatchFrom absPred (i + 1) rest with _ | r
      · by_cases hc : !isBlankPara p && absPred p <;> simp [hc]
      · rfl
    · show (analyzeAux total (i + 1) rest (analyzeStep total i p f)).special_keywords = _
      rw [ihk, hsk]
      show _ = (match (match lastMatchFrom kwPred (i+1) rest with
        | some r => some r
        | Option.none => if !isBlankPara p && kwPred p then some i else Option.none) with
        | some r => some r | Option.none => f.special_keywords)
      rcases lastMatchFrom kwPred (i + 1) rest with _ | r
      · by_cases hc : !isBlankPara p && kwPred p <;> simp [hc]
      · rfl
    · show (analyzeAux total (i + 1) rest (analyzeStep total i p f)).special_references = _
      rw [ihr, hsr]
      show _ = (match (match lastMatchFrom refPred (i+1) rest with
        | some r => some r
        | Option.none => if !isBlankPara p && refPred p then some i else Option.none) with
        | some r => some r | Option.none => f.special_references)
      rcases lastMatchFrom refPred (i + 1) rest with _ | r
      · by_cases hc : !isBlankPara p && refPred p <;> simp [hc]
      · rfl

theorem lastMatchFrom_bound (pred : String → Bool) :
    ∀ (ps : List String) (i r : Nat),
      lastMatchFrom pred i ps = some r → i ≤ r ∧ r < i + ps.length := by
  intro ps
  induction ps with
  | nil => intro i r h; exact absurd h (by simp [lastMatchFrom])
  | cons p rest ih =>
    intro i r h
    unfold lastMatchFrom at h
    rcases hl : lastMatchFrom pred (i + 1) rest with _ | r'
    · rw [hl] at h
      by_cases hc : !isBlankPara p && pred p
      · rw [if_pos hc] at h
        cases h
        simp
      · rw [if_neg hc] at h
        exact absurd h (by simp)
    · rw [hl] at h
      cases h
      have := ih (i + 1) r hl
      have hlen : (p :: rest).length = rest.length + 1 := rfl
      exact ⟨by omega, by omega⟩

theorem analyzeAux_titles_bound (total : Nat) :
    ∀ (ps : List String) (i : Nat) (f : Features) (j : Nat),
      j ∈ (analyzeAux total i ps f).potential_titles →
      j ∈ f.potential_titles ∨ (i ≤ j ∧ j < i + ps.length) := by
  intro ps
  induction ps with
  | nil => intro i f j h; exact Or.inl h
  | cons p rest ih =>
    intro i f j h
    have step := (analyzeStep_lists total i p f).1
    rcases ih (i + 1) (analyzeStep total i p f) j h with hin | ⟨h1, h2⟩
    · rw [step] at hin
      rcases List.mem_append.mp hin with hin | hin
      · exact Or.inl hin
      · right
        rcases hc : (!isBlankPara p && isPotentialTitle p i total) with _ | _ <;>
          rw [hc] at hin
        · simp at hin
        · simp at hin
          subst hin
          simp
    · right
      have hlen : (p :: rest).length = rest.length + 1 := rfl
      exact ⟨by omega, by omega⟩

theorem analyzeAux_subtitles_bound (total : Nat) :
    ∀ (ps : List String) (i : Nat) (f : Features) (j : Nat),
      j ∈ (analyzeAux total i ps f).potential_subtitles →
      j ∈ f.potential_subtitles ∨ (i ≤ j ∧ j < i + ps.length) := by
  intro ps
  induction ps with
  | nil => intro i f j h; exact Or.inl h
  | cons p rest ih =>
    intro i f j h
    have step := (analyzeStep_lists total i p f).2
    rcases ih (i + 1) (analyzeStep total i p f) j h with hin | ⟨h1, h2⟩
    · rw [step] at hin
      rcases List.mem_append.mp hin with hin | hin
      · exact Or.inl hin
      · right
        rcases hc : (!isBlankPara p && !isPotentialTitle p i total &&
            isPotentialSubtitle p i total) with _ | _ <;> rw [hc] at hin
        · simp at hin
        · simp at hin
          subst hin
          simp
    · right
      have hlen : (p :: rest).length = rest.length + 1 := rfl
      exact ⟨by omega, by omega⟩

theorem analyzeAux_stats (total : Nat) :
    ∀ (ps : List String) (i : Nat) (f : Features),
      (analyzeAux total i ps f).paragraph_lengths =
          f.paragraph_lengths ++
            ((ps.filter (fun p => !isBlankPara p)).map String.length)
        ∧ (analyzeAux total i ps f).total_length =
          f.total_length + ((ps.filter (fun p => !isBlankPara p)).map String.length).sum
        ∧ (analyzeAux total i ps f).max_length =
          ((ps.filter (fun p => !isBlankPara p)).map String.length).foldl max f.max_length
        ∧ (analyzeAux total i ps f).min_length =
          ((ps.filter (fun p => !isBlankPara p)).map String.length).foldl minInf f.min_length := by
  intro ps
  induction ps with
  | nil => intro i f; simp [analyzeAux]
  | cons p rest ih =>
    intro i f
    obtain ⟨ih1, ih2, ih3, ih4⟩ := ih (i + 1) (analyzeStep total i p f)
    obtain ⟨hs1, hs2, hs3, hs4⟩ := analyzeStep_stats total i p f
    by_cases hb : isBlankPara p
    · refine ⟨?_, ?_, ?_, ?_⟩ <;>
        simp [analyzeAux, List.filter_cons, hb, ih1, ih2, ih3, ih4, hs1, hs2, hs3, hs4]
    · refine ⟨?_, ?_, ?_, ?_⟩ <;>
        simp [analyzeAux, List.filter_cons, hb, ih1, ih2, ih3, ih4, hs1, hs2, hs3, hs4,
          Nat.add_assoc]

theorem foldl_minInf_acc_le :
    ∀ (L : List Nat) (a : Option Nat) (m y : Nat),
      L.foldl minInf a = some m → a = some y → m ≤ y := by
  intro L
  induction L with
  | nil =>
    intro a m y h ha
    rw [ha] at h
    cases h
    exact Nat.le_refl _
  | cons p t ih =>
    intro a m y h ha
    subst ha
    have : minInf (some y) p = some (min y p) := rfl
    rw [List.foldl_cons, this] at h
    exact Nat.le_trans (ih _ m (min y p) h rfl) (Nat.min_le_left _ _)

theorem foldl_minInf_le :
    ∀ (L : List Nat) (a : Option Nat) (m : Nat),
      L.foldl minInf a = some m → ∀ x ∈ L, m ≤ x := by
  intro L
  induction L with
  | nil => intro a m _ x hx; exact absurd hx (by simp)
  | cons p t ih =>
    intro a m h x hx
    rw [List.foldl_cons] at h
    rcases List.mem_cons.mp hx with hx | hx
    · subst hx
      rcases ha : a with _ | y
      · rw [ha] at h
        have : minInf Option.none x = some x := rfl
        rw [this] at h
        exact foldl_minInf_acc_le t _ m x h rfl
      · rw [ha] at h
        have : minInf (some y) x = some (min y x) := rfl
        rw [this] at h
        exact Nat.le_trans (foldl_minInf_acc_le t _ m (min y x) h rfl)
          (Nat.min_le_right _ _)
    · exact ih (minInf a p) m h x hx

theorem foldl_minInf_isSome :
    ∀ (L : List Nat) (a : Option Nat), L ≠ [] → (L.foldl minInf a).isSome = true := by
  intro L
  induction L with
  | nil => intro a h; exact absurd rfl h
  | cons p t ih =>
    intro a _
    rw [List.foldl_cons]
    rcases ht : t with _ | ⟨q, u⟩
    · rcases a with _ | y <;> rfl
    · exact ht ▸ ih (minInf a p) (by simp [ht])

theorem foldl_max_ge_acc : ∀ (L : List Nat) (a : Nat), a ≤ L.foldl max a := by
  intro L
  induction L with
  | nil => intro a; exact Nat.le_refl _
  | cons p t ih =>
    intro a
    rw [List.foldl_cons]
    exact Nat.le_trans (Nat.le_max_left a p) (ih (max a p))

theorem foldl_max_ge_mem :
    ∀ (L : List Nat) (a x : Nat), x ∈ L → x ≤ L.foldl max a := by
  intro L
  induction L with
  | nil => intro a x hx; exact absurd hx (by simp)
  | cons p t ih =>
    intro a x hx
    rw [List.foldl_cons]
    rcases List.mem_cons.mp hx with hx | hx
    · subst hx
      exact Nat.le_trans (Nat.le_max_right a x) (foldl_max_ge_acc t _)
    · exact ih (max a p) x hx

/-- An instruction that contributes a paragraph: a dict whose content value
(defaulting to the empty string) supports the `content[:50]` preview slice. -/
def yieldsParagraph (e : PyVal) : Bool :=
  match e with
  | .dict d => pySliceable ((dictGet d "content").getD (.str ""))
  | _ => false

theorem processElement_isSome (e : PyVal) :
    (processElement e).isSome = yieldsParagraph e := by
  cases e <;> simp [processElement, yieldsParagraph]
  rename_i d
  by_cases h : pySliceable ((dictGet d "content").getD (.str "")) <;> simp [h]

/-- Claim C2 (corrected): the batched loop of `apply_formatting` visits every
instruction in order and never aborts, but the output paragraph count equals
the number of instructions that are dicts with sliceable content — a non-dict
instruction (or one whose content preview raises before `add_paragraph`)
contributes no paragraph at all, while each remaining instruction
contributes exactly one (possibly empty/partial) paragraph. -/
theorem apply_formatting_paragraph_count : ∀ es : List PyVal,
    applyFormatting (.dict [("elements", .list es)]) = some (processBatches es)
    ∧ processBatches es = es.filterMap processElement
    ∧ (processBatches es).length = (es.filter yieldsParagraph).length
    ∧ (∀ e, (processElement e).isSome = yieldsParagraph e) := by
  intro es
  refine ⟨rfl, processBatches_eq es, ?_, fun e => processElement_isSome e⟩
  rw [processBatches_eq, length_filterMap_eq]
  congr 1
  apply List.filter_congr
  intro e _
  exact processElement_isSome e

/-- Claim C2 counterexample: a single non-dict instruction is accepted by
`apply_formatting` yet produces an output document with zero paragraphs, not
one paragraph per instruction. -/
theorem apply_formatting_count_cex :
    applyFormatting (.dict [("elements", .list [.int 42])]) = some []
    ∧ [PyVal.int 42].length = 1 ∧ ([] : List Paragraph).length ≠ 1 := by
  exact ⟨rfl, rfl, by decide⟩

/-- Claim C5 (confirmed): `_fix_json` tries its five repair strategies in
source order — trailing comma before array close, missing comma between
adjacent objects, appended closing delimiters, comma at the first parseable
bracket-type transition, truncation to the last `\x7d\x7d` plus closing
characters — stopping at the first strategy whose result parses; when every
strategy fails the input is returned unchanged, so any output that differs
from the input parses as valid JSON. -/
theorem fix_json_strategy_order : ∀ s : String,
    (fixJson s ≠ s → (jsonLoads (fixJson s)).isSome = true)
    ∧ (∀ f, strat1 s.toList = some f ∨ strat2 s.toList = some f ∨
        strat3 s.toList = some f ∨ strat4 s.toList = some f ∨
        strat5 s.toList = some f → (jsonLoadsL f).isSome = true)
    ∧ (∀ f, strat1 s.toList = some f → fixJson s = String.mk f)
    ∧ (∀ f, strat1 s.toList = Option.none → strat2 s.toList = some f →
        fixJson s = String.mk f)
    ∧ (∀ f, strat1 s.toList = Option.none → strat2 s.toList = Option.none →
        strat3 s.toList = some f → fixJson s = String.mk f)
    ∧ (∀ f, strat1 s.toList = Option.none → strat2 s.toList = Option.none →
        strat3 s.toList = Option.none → strat4 s.toList = some f →
        fixJson s = String.mk f)
    ∧ (∀ f, strat1 s.toList = Option.none → strat2 s.toList = Option.none →
        strat3 s.toList = Option.none → strat4 s.toList = Option.none →
        strat5 s.toList = some f → fixJson s = String.mk f)
    ∧ (strat1 s.toList = Option.none → strat2 s.toList = Option.none →
        strat3 s.toList = Option.none → strat4 s.toList = Option.none →
        strat5 s.toList = Option.none → fixJson s = s) := by
  intro s
  refine ⟨?_, fun f h => strat_parses s.toList f h, ?_, ?_, ?_, ?_, ?_, ?_⟩
  · intro hne
    rcases fixJson_eq_or_parses s with he | hp
    · exact absurd he hne
    · exact hp
  · intro f h1
    show String.mk (fixJsonL s.toList) = String.mk f
    unfold fixJsonL
    rw [h1]
  · intro f h1 h2
    show String.mk (fixJsonL s.toList) = String.mk f
    unfold fixJsonL
    rw [h1, h2]
  · intro f h1 h2 h3
    show String.mk (fixJsonL s.toList) = String.mk f
    unfold fixJsonL
    rw [h1, h2, h3]
  · intro f h1 h2 h3 h4
    show String.mk (fixJsonL s.toList) = String.mk f
    unfold fixJsonL
    rw [h1, h2, h3, h4]
  · intro f h1 h2 h3 h4 h5
    show String.mk (fixJsonL s.toList) = String.mk f
    unfold fixJsonL
    rw [h1, h2, h3, h4, h5]
  · intro h1 h2 h3 h4 h5
    show String.mk (fixJsonL s.toList) = s
    unfold fixJsonL
    rw [h1, h2, h3, h4, h5]
    rfl

/-- Witness for claim C5 at a truncated payload: repair changes it, so the
repaired result parses. -/
theorem fix_json_strategy_order_witness :
    (jsonLoads (fixJson "\x7b\"a\":1")).isSome = true :=
  (fix_json_strategy_order "\x7b\"a\":1").1 (by decide)

/-- Claim C6 (corrected): once repair succeeds (or the payload was already
parseable) the result parses, and applying repair again still yields a
parseable result — repair preserves parseability rather than being the
identity on repaired output. -/
theorem fix_json_parse_stability : ∀ s : String,
    (jsonLoads s).isSome = true ∨ fixJson s ≠ s →
    (jsonLoads (fixJson s)).isSome = true ∧
      (jsonLoads (fixJson (fixJson s))).isSome = true := by
  intro s h
  have h1 : (jsonLoads (fixJson s)).isSome = true := by
    rcases fixJson_eq_or_parses s with he | hp
    · rcases h with h | h
      · rw [he]; exact h
      · exact absurd he h
    · exact hp
  refine ⟨h1, ?_⟩
  rcases fixJson_eq_or_parses (fixJson s) with he | hp
  · rw [he]; exact h1
  · exact hp

/-- Witness for claim C6's amended statement at a truncated payload. -/
theorem fix_json_parse_stability_witness :
    (jsonLoads (fixJson (fixJson "\x7b\"b\":2"))).isSome = true :=
  (fix_json_parse_stability "\x7b\"b\":2" (Or.inr (by decide))).2

/-- Claim C6 counterexample: on the truncated payload `\x7b"a":"\x7d\x7b"` repair
succeeds (appending the missing closing brace gives a parseable string), yet
repairing the repaired — already valid — payload edits it again by inserting
a comma inside the string literal, so `repair(repair(x)) ≠ repair(x)` and
repair of a valid payload is not a no-op. -/
theorem fix_json_idempotence_cex :
    (jsonLoads "\x7b\"a\":\"\x7d\x7b\"").isSome = false
    ∧ fixJson "\x7b\"a\":\"\x7d\x7b\"" = "\x7b\"a\":\"\x7d\x7b\"\x7d"
    ∧ (jsonLoads "\x7b\"a\":\"\x7d\x7b\"\x7d").isSome = true
    ∧ fixJson "\x7b\"a\":\"\x7d\x7b\"\x7d" = "\x7b\"a\":\"\x7d,\x7b\"\x7d"
    ∧ fixJson (fixJson "\x7b\"a\":\"\x7d\x7b\"") ≠ fixJson "\x7b\"a\":\"\x7d\x7b\"" := by
  exact ⟨rfl, rfl, rfl, rfl, by decide⟩

/-- The title-candidate rule exactly as claim C8 words it: first paragraph
shorter than 30 characters, or a title keyword, or shorter than 20
characters with no terminal punctuation. -/
def titleClaimRHS (p : String) (index : Nat) : Bool :=
  (index == 0 && decide (p.length < 30)) || matchesKwList titleKeywords p ||
    (decide (p.length < 20) && !containsPunct p)

/-- Claim C8 (corrected): `_is_potential_title` equals the claimed
three-way disjunction only under the additional guard that the paragraph is
at most 50 characters long — the source rejects longer paragraphs before any
keyword test. -/
theorem is_potential_title_rule : ∀ (p : String) (i n : Nat),
    isPotentialTitle p i n = (decide (p.length ≤ 50) && titleClaimRHS p i) := by
  intro p i n
  unfold isPotentialTitle titleClaimRHS
  by_cases h1 : 50 < p.length
  · have h2 : ¬ p.length ≤ 50 := by omega
    simp [h1, h2]
  · have h2 : p.length ≤ 50 := by omega
    by_cases h3 : i == 0
    · by_cases h4 : p.length < 30
      · simp [h1, h2, h3, h4]
      · by_cases h5 : matchesKwList titleKeywords p
        · simp [h1, h2, h3, h4, h5]
        · by_cases h6 : p.length < 20
          · by_cases h7 : containsPunct p <;> simp [h1, h2, h3, h4, h5, h6, h7]
          · simp [h1, h2, h3, h4, h5, h6]
    · by_cases h5 : matchesKwList titleKeywords p
      · simp [h1, h2, h3, h5]
      · by_cases h6 : p.length < 20
        · by_cases h7 : containsPunct p <;> simp [h1, h2, h3, h5, h6, h7]
        · simp [h1, h2, h3, h5, h6]

/-- Claim C8 counterexample: a 61-character paragraph containing the keyword
`title` satisfies the claimed disjunction but is rejected by the source's
50-character pre-filter. -/
theorem is_potential_title_cex :
    titleClaimRHS "aaaaaaaaaaaaaaaaaaaaaaaaaaaaaaaaaaaaaaaaaaaaaaaaaaaaaaaatitle" 3 = true
    ∧ isPotentialTitle "aaaaaaaaaaaaaaaaaaaaaaaaaaaaaaaaaaaaaaaaaaaaaaaaaaaaaaaatitle" 3 10
      = false := by
  exact ⟨rfl, rfl⟩

theorem mkRat_q (n : Int) (d : Nat) : mkRat n d = (n : ℚ) / (d : ℚ) := by
  rw [Rat.mkRat_eq_divInt, Rat.divInt_eq_div]
  norm_num

/-- Claim C7 (confirmed): the numeric line-spacing multiplier is reset to 1.5
with a warning outside 0.8–3.0; inside that range values within 0.1 of 1.0,
1.5 and 2.0 classify to single, 1.5x and double spacing, all remaining values
to the 1.5x rule; the classification is what `_apply_paragraph_format`
records for a numeric `line_spacing`; and the cited concrete inputs classify
as the claim states. -/
theorem line_spacing_classification : ∀ x : ℚ,
    ((3 < x ∨ x < 4/5) → classifyLineSpacing x = (.onePointFive, true))
    ∧ (4/5 ≤ x → x ≤ 3 →
        ((classifyLineSpacing x).2 = false
        ∧ (|x - 1| < 1/10 → (classifyLineSpacing x).1 = .single)
        ∧ (|x - 3/2| < 1/10 → (classifyLineSpacing x).1 = .onePointFive)
        ∧ (|x - 2| < 1/10 → (classifyLineSpacing x).1 = .double)
        ∧ (¬ |x - 1| < 1/10 → ¬ |x - 3/2| < 1/10 → ¬ |x - 2| < 1/10 →
            (classifyLineSpacing x).1 = .onePointFive)))
    ∧ (∀ fmt : List (String × PyVal), dictGet fmt "line_spacing" = some (.float x) →
        spacingOf fmt = some (classifyLineSpacing x))
    ∧ classifyLineSpacing 1 = (.single, false)
    ∧ classifyLineSpacing (3/2) = (.onePointFive, false)
    ∧ classifyLineSpacing 2 = (.double, false)
    ∧ classifyLineSpacing (29/20) = (.onePointFive, false)
    ∧ classifyLineSpacing (31/20) = (.onePointFive, false)
    ∧ classifyLineSpacing 5 = (.onePointFive, true) := by
  have e45 : mkRat 4 5 = (4/5 : ℚ) := by rw [mkRat_q]; norm_num
  have e32 : (3/2 : ℚ) = mkRat 3 2 := by rw [mkRat_q]; norm_num
  have e2920 : (29/20 : ℚ) = mkRat 29 20 := by rw [mkRat_q]; norm_num
  have e3120 : (31/20 : ℚ) = mkRat 31 20 := by rw [mkRat_q]; norm_num
  have hnear1 : ∀ y : ℚ, nearTenth y (mkRat 9 10) (mkRat 11 10) =
      decide (|y - 1| < 1/10) := by
    intro y
    have ha : mkRat 9 10 = (1 : ℚ) - 1/10 := by rw [mkRat_q]; norm_num
    have hb : mkRat 11 10 = (1 : ℚ) + 1/10 := by rw [mkRat_q]; norm_num
    rw [ha, hb, nearTenth_eq_abs]
  have hnear15 : ∀ y : ℚ, nearTenth y (mkRat 14 10) (mkRat 16 10) =
      decide (|y - 3/2| < 1/10) := by
    intro y
    have ha : mkRat 14 10 = (3/2 : ℚ) - 1/10 := by rw [mkRat_q]; norm_num
    have hb : mkRat 16 10 = (3/2 : ℚ) + 1/10 := by rw [mkRat_q]; norm_num
    rw [ha, hb, nearTenth_eq_abs]
  have hnear2 : ∀ y : ℚ, nearTenth y (mkRat 19 10) (mkRat 21 10) =
      decide (|y - 2| < 1/10) := by
    intro y
    have ha : mkRat 19 10 = (2 : ℚ) - 1/10 := by rw [mkRat_q]; norm_num
    have hb : mkRat 21 10 = (2 : ℚ) + 1/10 := by rw [mkRat_q]; norm_num
    rw [ha, hb, nearTenth_eq_abs]
  intro x
  refine ⟨?_, ?_, ?_, ?_, ?_, ?_, ?_, ?_, ?_⟩
  · intro h
    have hw : (decide (3 < x) || decide (x < mkRat 4 5)) = true := by
      rcases h with h | h
      · simp [h]
      · rw [e45]
        simp [h]
    unfold classifyLineSpacing
    simp [hw]
    try decide
  · intro hlo hhi
    have hw : (decide (3 < x) || decide (x < mkRat 4 5)) = false := by
      rw [e45]
      simp only [Bool.or_eq_false_iff, decide_eq_false_iff_not, not_lt]
      exact ⟨hhi, hlo⟩
    have key : classifyLineSpacing x =
        (if |x - 1| < 1/10 then (SpacingRule.single, false)
         else if |x - 3/2| < 1/10 then (SpacingRule.onePointFive, false)
         else if |x - 2| < 1/10 then (SpacingRule.double, false)
         else (SpacingRule.onePointFive, false)) := by
      unfold classifyLineSpacing
      rw [hw]
      simp only [Bool.false_eq_true, if_false, hnear1, hnear15, hnear2,
        decide_eq_true_eq]
    refine ⟨?_, ?_, ?_, ?_, ?_⟩
    · rw [key]
      split_ifs <;> rfl
    · intro h1
      rw [key, if_pos h1]
    · intro h2
      have h1 : ¬ |x - 1| < 1/10 := by
        rw [abs_sub_lt_iff] at h2 ⊢
        intro hc
        rcases h2 with ⟨a, b⟩
        rcases hc with ⟨c, d⟩
        linarith
      rw [key, if_neg h1, if_pos h2]
    · intro h3
      have h1 : ¬ |x - 1| < 1/10 := by
        rw [abs_sub_lt_iff] at h3 ⊢
        intro hc
        rcases h3 with ⟨a, b⟩
        rcases hc with ⟨c, d⟩
        linarith
      have h2 : ¬ |x - 3/2| < 1/10 := by
        rw [abs_sub_lt_iff] at h3 ⊢
        intro hc
        rcases h3 with ⟨a, b⟩
        rcases hc with ⟨c, d⟩
        linarith
      rw [key, if_neg h1, if_neg h2, if_pos h3]
    · intro h1 h2 h3
      rw [key, if_neg h1, if_neg h2, if_neg h3]
  · intro fmt hf
    simp [spacingOf, hf, pyNumVal]
  · decide
  · rw [e32]; decide
  · decide
  · rw [e2920]; decide
  · rw [e3120]; decide
  · decide

/-- Witness for claim C7 at multiplier 5: clamped to the 1.5x rule with a
warning. -/
theorem line_spacing_classification_witness :
    classifyLineSpacing 5 = (.onePointFive, true) :=
  (line_spacing_classification 5).1 (Or.inl (by norm_num))

theorem validateStructure_dict (d : List (String × PyVal)) (elems items' : List PyVal)
    (hd : dictGet d "elements" = some (.list elems))
    (hne : elems ≠ [])
    (hm : mapOption validateElement elems = some items') :
    validateStructure (.dict d) =
      some (true, .dict (dictSet d "elements" (.list items'))) := by
  have hdne : d.isEmpty = false := by
    rcases d with _ | ⟨kv, t⟩
    · simp [dictGet] at hd
    · rfl
  have hene : elems.isEmpty = false := by
    rcases elems with _ | ⟨e, t⟩
    · exact absurd rfl hne
    · rfl
  unfold validateStructure
  simp only [pyTruthy, pyContains, pyGetItem, dictHas, Bool.not_not, hd,
    Option.isSome_some, hdne, hene, Bool.false_eq_true, if_false]
  rw [hm]
  rfl

theorem extractContent_mkResponse (s : String) :
    extractContent (mkResponse s) = if s.isEmpty then Option.none else some s := rfl

theorem extractSpan_empty : extractSpan "" = Option.none := rfl

theorem findIdx_none_iff (cs : List Char) (c : Char) :
    List.findIdx? (fun x => x == c) cs = Option.none ↔ c ∉ cs := by
  rw [List.findIdx?_eq_none_iff]
  constructor
  · intro h hc
    have := h c hc
    simp at this
  · intro h x hx
    simp only [beq_eq_false_iff_ne, ne_eq]
    intro he
    exact h (he ▸ hx)

theorem lastBraceIdx_none_iff (cs : List Char) :
    lastBraceIdx cs = Option.none ↔ '}' ∉ cs := by
  unfold lastBraceIdx
  rw [List.getLast?_eq_none_iff, List.filter_eq_nil_iff]
  constructor
  · intro h hc
    rcases List.mem_iff_getElem?.mp hc with ⟨i, hi⟩
    have hlt : i < cs.length := by
      rcases List.getElem?_eq_some_iff.mp hi with ⟨hl, _⟩
      exact hl
    have := h i (List.mem_range.mpr hlt)
    simp [hi] at this
  · intro h i _
    simp only [Bool.not_eq_true, beq_eq_false_iff_ne, ne_eq]
    intro he
    exact h (List.mem_iff_getElem?.mpr ⟨i, he⟩)

/-- Claim C3 (corrected): `parse_response` extracts the substring from the
first `\x7b` to the last `\x7d` of the content and hands exactly that span to the
strict-parse/repair stage; when the content lacks an opening or a closing
brace the extraction yields nothing and the whole call fails — there is no
balanced-span depth scan, no fenced-block fallback and no whole-text retry. -/
theorem parse_response_extraction : ∀ s : String,
    (extractSpan s = Option.none ↔ ('{' ∉ s.toList ∨ '}' ∉ s.toList))
    ∧ (('{' ∉ s.toList ∨ '}' ∉ s.toList) → parseResponse (mkResponse s) = Option.none)
    ∧ (∀ span, extractSpan s = some span →
        parseResponse (mkResponse s) = (loadsOrRepair span).bind checkInstructions) := by
  intro s
  have hnone : extractSpan s = Option.none ↔ ('{' ∉ s.toList ∨ '}' ∉ s.toList) := by
    unfold extractSpan
    rcases hf : List.findIdx? (fun c => c == '{') s.toList with _ | a
    · simp only [true_iff]
      left
      exact (findIdx_none_iff s.toList '{').mp hf
    · rcases hl : lastBraceIdx s.toList with _ | b
      · simp only [true_iff]
        right
        exact (lastBraceIdx_none_iff s.toList).mp hl
      · simp only [reduceCtorEq, false_iff, not_or, not_not]
        constructor
        · by_contra hc
          rw [(findIdx_none_iff s.toList '{').mpr hc] at hf
          exact absurd hf (by simp)
        · by_contra hc
          rw [(lastBraceIdx_none_iff s.toList).mpr hc] at hl
          exact absurd hl (by simp)
  refine ⟨hnone, ?_, ?_⟩
  · intro h
    have he : extractSpan s = Option.none := hnone.mpr h
    unfold parseResponse
    rw [extractContent_mkResponse]
    by_cases hs : s.isEmpty
    · rw [if_pos hs]
      rfl
    · rw [if_neg hs]
      show (parsedPayload s).bind checkInstructions = Option.none
      unfold parsedPayload
      rw [he]
      rfl
  · intro span hsp
    have hs : s.isEmpty = false := by
      by_cases hs : s.isEmpty
      · have : s = "" := (String.isEmpty_iff s).mp hs
        rw [this, extractSpan_empty] at hsp
        exact absurd hsp (by simp)
      · simpa using hs
    unfold parseResponse
    rw [extractContent_mkResponse, hs]
    show (parsedPayload s).bind checkInstructions = _
    unfold parsedPayload
    rw [hsp]
    rfl

/-- Witness for claim C3's amended statement: content with no braces fails. -/
theorem parse_response_extraction_witness :
    parseResponse (mkResponse "abc") = Option.none :=
  (parse_response_extraction "abc").2.1 (Or.inl (by decide))

/-- Claim C3 counterexample: on content `xx\x7b"elements": []\x7d yy\x7d` the claimed
depth-scanning extraction returns the balanced span `\x7b"elements": []\x7d`, which
parses and passes every structural check, while `parse_response` takes the
first-`\x7b`-to-last-`\x7d` span, fails to parse it even after repair, and rejects
the response; on brace-less content the claimed whole-text fallback never
happens — extraction fails outright. -/
theorem parse_response_extraction_cex :
    claimedExtract "xx\x7b\"elements\": []\x7d yy\x7d" = "\x7b\"elements\": []\x7d"
    ∧ (loadsOrRepair "\x7b\"elements\": []\x7d").bind checkInstructions =
        some (.dict [("elements", .list [])])
    ∧ parseResponse (mkResponse "xx\x7b\"elements\": []\x7d yy\x7d") = Option.none
    ∧ extractSpan "xx\x7b\"elements\": []\x7d yy\x7d" = some "\x7b\"elements\": []\x7d yy\x7d"
    ∧ parseResponse (mkResponse "no json here") = Option.none := by
  exact ⟨rfl, rfl, rfl, rfl, rfl⟩

/-- An element rejected by the per-element checks of `parse_response`. -/
theorem checkInstructions_bad (d : List (String × PyVal)) (elems : List PyVal)
    (hd : dictGet d "elements" = some (.list elems))
    (hbad : ∃ e ∈ elems, checkElement e = false) :
    checkInstructions (.dict d) = Option.none := by
  have hall : elems.all checkElement = false := by
    by_cases hall : elems.all checkElement = true
    · rcases hbad with ⟨e, he, hfe⟩
      have := List.all_eq_true.mp hall e he
      rw [hfe] at this
      exact absurd this (by simp)
    · simpa using hall
  unfold checkInstructions
  dsimp only
  rw [hd]
  dsimp only
  rw [hall]
  rfl

/-- Claim C10 (confirmed): once the payload parses, any element that is not a
dict or lacks one of `type`, `content`, `format` makes `parse_response`
reject the whole response; the same payload, handed instead to
`validate_structure` with all elements dicts and at least one present, would
have been accepted with the missing fields backfilled — so per-element
omissions surface at the parse stage, before validation ever runs. -/
theorem parse_response_rejects_bad_elements :
    ∀ (s : String) (d : List (String × PyVal)) (elems : List PyVal),
    parsedPayload s = some (.dict d) →
    dictGet d "elements" = some (.list elems) →
    (∃ e ∈ elems, checkElement e = false) →
    parseResponse (mkResponse s) = Option.none
    ∧ (elems ≠ [] → (∀ e ∈ elems, ∃ ed, e = PyVal.dict ed) →
        ∃ out, validateStructure (.dict d) = some (true, out)) := by
  intro s d elems hp hd hbad
  constructor
  · have hs : s.isEmpty = false := by
      by_cases hs : s.isEmpty
      · have : s = "" := (String.isEmpty_iff s).mp hs
        rw [this] at hp
        unfold parsedPayload at hp
        rw [extractSpan_empty] at hp
        exact absurd hp (by simp)
      · simpa using hs
    unfold parseResponse
    rw [extractContent_mkResponse, hs]
    show (parsedPayload s).bind checkInstructions = Option.none
    rw [hp]
    show checkInstructions (.dict d) = Option.none
    exact checkInstructions_bad d elems hd hbad
  · intro hne hdicts
    have hmap : (mapOption validateElement elems).isSome = true := by
      apply mapOption_isSome_of_forall
      intro e he
      rcases hdicts e he with ⟨ed, hed⟩
      rw [hed, validateElement_dict]
      rfl
    rcases hm : mapOption validateElement elems with _ | items'
    · rw [hm] at hmap
      exact absurd hmap (by simp)
    · exact ⟨.dict (dictSet d "elements" (.list items')),
        validateStructure_dict d elems items' hd hne hm⟩

/-- Witness for claim C10 at a payload whose single element lacks `format`. -/
theorem parse_response_rejects_bad_elements_witness :
    parseResponse (mkResponse "\x7b\"elements\": [\x7b\"type\": \"t\", \"content\": \"c\"\x7d]\x7d") =
      Option.none :=
  (parse_response_rejects_bad_elements
    "\x7b\"elements\": [\x7b\"type\": \"t\", \"content\": \"c\"\x7d]\x7d"
    [("elements", .list [.dict [("type", .str "t"), ("content", .str "c")]])]
    [.dict [("type", .str "t"), ("content", .str "c")]]
    rfl rfl ⟨.dict [("type", .str "t"), ("content", .str "c")], by simp, rfl⟩).1

/-- Claim C4 (corrected): after a successful `validate_structure`, every
element carries `type`, `content` and `format` keys, with backfill happening
only for keys missing entirely: an element with no `format` at all receives
the full default record, but an element whose `format` record is present yet
partial keeps it unchanged — missing individual format attributes are not
merged with defaults at validation time. -/
theorem validate_structure_backfill :
    ∀ (stru out : PyVal) (d : List (String × PyVal)) (elems : List PyVal),
    validateStructure stru = some (true, out) →
    stru = PyVal.dict d →
    dictGet d "elements" = some (.list elems) →
    (out = .dict (dictSet d "elements"
        (.list (elems.map (fun e => (validateElement e).getD e))))
      ∧ (∀ e ∈ elems, (validateElement e).isSome = true))
    ∧ (∀ ed : List (String × PyVal),
        validateElement (.dict ed) = some (.dict (fixElemDict ed))
        ∧ dictHas (fixElemDict ed) "type" = true
        ∧ dictHas (fixElemDict ed) "content" = true
        ∧ dictHas (fixElemDict ed) "format" = true
        ∧ (dictHas ed "format" = false →
            dictGet (fixElemDict ed) "format" = some defaultFormatRecord)
        ∧ (∀ fv, dictGet ed "format" = some fv →
            dictGet (fixElemDict ed) "format" = some fv)) := by
  intro stru out d elems hv hs hd
  subst hs
  constructor
  · have hdne : d.isEmpty = false := by
      rcases d with _ | ⟨kv, t⟩
      · simp [dictGet] at hd
      · rfl
    unfold validateStructure at hv
    simp only [pyTruthy, pyContains, pyGetItem, dictHas, Bool.not_not, hd,
      Option.isSome_some, hdne, Bool.false_eq_true, if_false] at hv
    by_cases hene : elems.isEmpty
    · simp [hene] at hv
    · have hene' : elems.isEmpty = false := by simpa using hene
      simp only [hene', Bool.false_eq_true, if_false] at hv
      rcases hm : mapOption validateElement elems with _ | items'
      · rw [hm] at hv
        exact absurd hv (by simp)
      · rw [hm] at hv
        dsimp only [pySetItem, Option.getD] at hv
        obtain ⟨hall, hitems⟩ := mapOption_some validateElement elems items' hm
        have hout : out = .dict (dictSet d "elements" (.list items')) := by
          have := Option.some_inj.mp hv
          exact (Prod.ext_iff.mp this).2.symm
        constructor
        · rw [hout, hitems]
        · exact hall
  · intro ed
    exact ⟨validateElement_dict ed, (fixElemDict_has ed).1, (fixElemDict_has ed).2.1,
      (fixElemDict_has ed).2.2, fixElemDict_format_default ed,
      fun fv h => fixElemDict_format_keep ed fv h⟩

/-- Witness for claim C4 at a structure with one empty element: validation
succeeds with the element rewritten to the mapped backfilled form. -/
theorem validate_structure_backfill_witness :
    PyVal.dict [("elements", PyVal.list [.dict [("type", .str "正Document"),
        ("content", .str ""), ("format", defaultFormatRecord)]])] =
      .dict (dictSet [("elements", PyVal.list [.dict []])] "elements"
        (.list ([PyVal.dict []].map (fun e => (validateElement e).getD e)))) :=
  ((validate_structure_backfill (.dict [("elements", .list [.dict []])])
    (.dict [("elements", .list [.dict [("type", .str "正Document"),
      ("content", .str ""), ("format", defaultFormatRecord)]])])
    [("elements", .list [.dict []])] [.dict []] rfl rfl rfl).1).1

/-- Claim C4 counterexample: an element whose `format` record is present but
holds only `font` passes validation unchanged — its format record is left
without `size` and `line_spacing`, contradicting the claimed merge of the
default record into partial format data. -/
theorem validate_structure_backfill_cex :
    validateStructure (.dict [("elements", .list [.dict [("type", .str "t"),
        ("content", .str "c"), ("format", .dict [("font", .str "X")])]])]) =
      some (true, .dict [("elements", .list [.dict [("type", .str "t"),
        ("content", .str "c"), ("format", .dict [("font", .str "X")])]])])
    ∧ dictGet [("font", PyVal.str "X")] "size" = Option.none
    ∧ dictGet [("font", PyVal.str "X")] "line_spacing" = Option.none := by
  exact ⟨rfl, rfl, rfl⟩

/-- Claim C1 (corrected): special-section detection assigns the section index
unconditionally on every keyword hit, so when several paragraphs match the
same list the LAST matching paragraph's index is recorded — later matches
overwrite earlier ones rather than being ignored.  Within one paragraph the
lists are still tried in order abstract, keywords, references with an early
return. -/
theorem special_sections_last_match :
    ∀ (ps : List String) (f : Features),
      analyzeTextFeatures ps = some f →
      f.special_abstract = lastMatchFrom absPred 0 ps
      ∧ f.special_keywords = lastMatchFrom kwPred 0 ps
      ∧ f.special_references = lastMatchFrom refPred 0 ps := by
  intro ps f h
  unfold analyzeTextFeatures at h
  by_cases hps : ps.isEmpty
  · rw [if_pos hps] at h
    exact absurd h (by simp)
  · rw [if_neg hps] at h
    obtain ⟨ha, hk, hr⟩ := analyzeAux_special ps.length ps 0 initFeatures
    have hsp : f.special_abstract =
        (analyzeAux ps.length 0 ps initFeatures).special_abstract
      ∧ f.special_keywords = (analyzeAux ps.length 0 ps initFeatures).special_keywords
      ∧ f.special_references =
        (analyzeAux ps.length 0 ps initFeatures).special_references := by
      by_cases hl : (analyzeAux ps.length 0 ps initFeatures).paragraph_lengths.isEmpty
      · rw [if_pos hl] at h
        rw [← Option.some_inj.mp h]
        exact ⟨rfl, rfl, rfl⟩
      · rw [if_neg hl] at h
        rw [← Option.some_inj.mp h]
        exact ⟨rfl, rfl, rfl⟩
    refine ⟨?_, ?_, ?_⟩
    · rw [hsp.1, ha]
      rcases lastMatchFrom absPred 0 ps with _ | r <;> rfl
    · rw [hsp.2.1, hk]
      rcases lastMatchFrom kwPred 0 ps with _ | r <;> rfl
    · rw [hsp.2.2, hr]
      rcases lastMatchFrom refPred 0 ps with _ | r <;> rfl

/-- Witness for claim C1 at `["x", "abstract"]`: the abstract index is the
last (only) matching paragraph, index 1. -/
theorem special_sections_last_match_witness :
    (Features.mk [1, 8] [0] [] (some 1) Option.none Option.none 9 (mkRat 9 2) 8
      (some 1)).special_abstract = lastMatchFrom absPred 0 ["x", "abstract"] :=
  (special_sections_last_match ["x", "abstract"]
    (Features.mk [1, 8] [0] [] (some 1) Option.none Option.none 9 (mkRat 9 2) 8
      (some 1)) rfl).1

/-- Claim C1 counterexample: with two paragraphs both matching the abstract
keyword list, the recorded abstract index is 1 (the last match), not 0 (the
first) as the claim states. -/
theorem special_sections_first_match_cex :
    (analyzeTextFeatures ["abstract", "abstract"]).map Features.special_abstract =
      some (some 1)
    ∧ some (some 1) ≠ some (some 0) := by
  exact ⟨rfl, by decide⟩

/-- The claim's ordering of the aggregate statistics: a finite minimum no
greater than the average, which is no greater than the maximum.  A
`min_length` still at its `float('inf')` seed (`Option.none`) exceeds every
average, so the ordering fails in that case. -/
def statsOrdered (f : Features) : Prop :=
  ∃ m, f.min_length = some m ∧ (m : ℚ) ≤ f.avg_length ∧ f.avg_length ≤ (f.max_length : ℚ)

theorem stats_ordered_core (L : List Nat) (hL : L ≠ []) :
    ∃ m, L.foldl minInf Option.none = some m ∧
      (m : ℚ) ≤ mkRat L.sum L.length ∧
      mkRat L.sum L.length ≤ ((L.foldl max 0 : Nat) : ℚ) := by
  have hsome := foldl_minInf_isSome L Option.none hL
  rcases hm : L.foldl minInf Option.none with _ | m
  · rw [hm] at hsome
    exact absurd hsome (by simp)
  · have hlen : 0 < L.length := List.length_pos.mpr hL
    have hlenQ : (0 : ℚ) < (L.length : ℚ) := by exact_mod_cast hlen
    have hr : (((L.sum : Nat) : Int) : ℚ) = ((L.sum : Nat) : ℚ) :=
      Int.cast_natCast _
    refine ⟨m, rfl, ?_, ?_⟩
    · have hminle : ∀ x ∈ L, m ≤ x := foldl_minInf_le L Option.none m hm
      have h1 : L.length * m ≤ L.sum := by
        simpa [smul_eq_mul] using List.card_nsmul_le_sum L m hminle
      rw [mkRat_q, le_div_iff₀ hlenQ, hr]
      have hc : ((L.length : ℚ)) * (m : ℚ) ≤ ((L.sum : Nat) : ℚ) := by
        exact_mod_cast h1
      linarith
    · have hmaxge : ∀ x ∈ L, x ≤ L.foldl max 0 := fun x hx => foldl_max_ge_mem L 0 x hx
      have h2 : L.sum ≤ L.length * (L.foldl max 0) := by
        simpa [smul_eq_mul] using List.sum_le_card_nsmul L (L.foldl max 0) hmaxge
      rw [mkRat_q, div_le_iff₀ hlenQ, hr]
      have hc : ((L.sum : Nat) : ℚ) ≤ ((L.length : ℚ)) * ((L.foldl max 0 : Nat) : ℚ) := by
        exact_mod_cast h2
      linarith

/-- Claim C9 (corrected): for every paragraph sequence containing at least
one non-blank paragraph, `analyze_text_features` returns a record whose
title, subtitle and special-section indices are valid positions in the
input, and whose aggregate statistics satisfy min ≤ avg ≤ max.  The
non-blank requirement is necessary: an all-blank non-empty input leaves
`min_length` at its `float('inf')` seed while the average stays 0. -/
theorem analyze_features_sound :
    ∀ (ps : List String) (f : Features),
      analyzeTextFeatures ps = some f →
      (∃ p ∈ ps, isBlankPara p = false) →
      (∀ j ∈ f.potential_titles, j < ps.length)
      ∧ (∀ j ∈ f.potential_subtitles, j < ps.length)
      ∧ (∀ j, f.special_abstract = some j → j < ps.length)
      ∧ (∀ j, f.special_keywords = some j → j < ps.length)
      ∧ (∀ j, f.special_references = some j → j < ps.length)
      ∧ statsOrdered f := by
  intro ps f h hnb
  unfold analyzeTextFeatures at h
  have hpsne : ps ≠ [] := by
    rcases hnb with ⟨p, hp, _⟩
    intro he
    rw [he] at hp
    exact absurd hp (by simp)
  have hps : ps.isEmpty = false := by
    rcases ps with _ | ⟨p, t⟩
    · exact absurd rfl hpsne
    · rfl
  simp only [hps, Bool.false_eq_true, if_false] at h
  obtain ⟨hs1, hs2, hs3, hs4⟩ := analyzeAux_stats ps.length ps 0 initFeatures
  have hgl : (analyzeAux ps.length 0 ps initFeatures).paragraph_lengths =
      (ps.filter (fun p => !isBlankPara p)).map String.length := by
    simpa [initFeatures] using hs1
  have hgt : (analyzeAux ps.length 0 ps initFeatures).total_length =
      ((ps.filter (fun p => !isBlankPara p)).map String.length).sum := by
    simpa [initFeatures] using hs2
  have hgmax : (analyzeAux ps.length 0 ps initFeatures).max_length =
      ((ps.filter (fun p => !isBlankPara p)).map String.length).foldl max 0 := by
    simpa [initFeatures] using hs3
  have hgmin : (analyzeAux ps.length 0 ps initFeatures).min_length =
      ((ps.filter (fun p => !isBlankPara p)).map String.length).foldl minInf
        Option.none := by
    simpa [initFeatures] using hs4
  have hLne : (ps.filter (fun p => !isBlankPara p)).map String.length ≠ [] := by
    rcases hnb with ⟨p, hp, hbp⟩
    have hmem : p ∈ ps.filter (fun p => !isBlankPara p) :=
      List.mem_filter.mpr ⟨hp, by simp [hbp]⟩
    intro he
    rw [List.map_eq_nil_iff] at he
    rw [he] at hmem
    exact absurd hmem (by simp)
  have hcond : ¬ ((analyzeAux ps.length 0 ps initFeatures).paragraph_lengths.isEmpty
      = true) := by
    rw [hgl]
    rcases hE : (ps.filter (fun p => !isBlankPara p)).map String.length with _ | ⟨a, t⟩
    · exact absurd hE hLne
    · simp
  rw [if_neg hcond] at h
  have hf : f = { analyzeAux ps.length 0 ps initFeatures with
      avg_length := mkRat (analyzeAux ps.length 0 ps initFeatures).total_length
        (analyzeAux ps.length 0 ps initFeatures).paragraph_lengths.length } :=
    (Option.some_inj.mp h).symm
  subst hf
  obtain ⟨ha, hk, hr⟩ := analyzeAux_special ps.length ps 0 initFeatures
  refine ⟨?_, ?_, ?_, ?_, ?_, ?_⟩
  · intro j hj
    rcases analyzeAux_titles_bound ps.length ps 0 initFeatures j hj with hin | ⟨_, hb⟩
    · exact absurd hin (by simp [initFeatures])
    · omega
  · intro j hj
    rcases analyzeAux_subtitles_bound ps.length ps 0 initFeatures j hj with hin | ⟨_, hb⟩
    · exact absurd hin (by simp [initFeatures])
    · omega
  · intro j hj
    have hj' : (analyzeAux ps.length 0 ps initFeatures).special_abstract = some j := hj
    rw [ha] at hj'
    rcases hl : lastMatchFrom absPred 0 ps with _ | r
    · rw [hl] at hj'
      exact absurd hj' (by simp [initFeatures])
    · rw [hl] at hj'
      have := lastMatchFrom_bound absPred ps 0 r hl
      have hjr : r = j := by simpa using hj'
      omega
  · intro j hj
    have hj' : (analyzeAux ps.length 0 ps initFeatures).special_keywords = some j := hj
    rw [hk] at hj'
    rcases hl : lastMatchFrom kwPred 0 ps with _ | r
    · rw [hl] at hj'
      exact absurd hj' (by simp [initFeatures])
    · rw [hl] at hj'
      have := lastMatchFrom_bound kwPred ps 0 r hl
      have hjr : r = j := by simpa using hj'
      omega
  · intro j hj
    have hj' : (analyzeAux ps.length 0 ps initFeatures).special_references = some j := hj
    rw [hr] at hj'
    rcases hl : lastMatchFrom refPred 0 ps with _ | r
    · rw [hl] at hj'
      exact absurd hj' (by simp [initFeatures])
    · rw [hl] at hj'
      have := lastMatchFrom_bound refPred ps 0 r hl
      have hjr : r = j := by simpa using hj'
      omega
  · obtain ⟨m, hm, hle1, hle2⟩ := stats_ordered_core
      ((ps.filter (fun p => !isBlankPara p)).map String.length) hLne
    refine ⟨m, ?_, ?_, ?_⟩
    · show (analyzeAux ps.length 0 ps initFeatures).min_length = some m
      rw [hgmin, hm]
    · show (m : ℚ) ≤ mkRat (analyzeAux ps.length 0 ps initFeatures).total_length
        (analyzeAux ps.length 0 ps initFeatures).paragraph_lengths.length
      rw [hgt, hgl]
      exact hle1
    · show mkRat (analyzeAux ps.length 0 ps initFeatures).total_length
          (analyzeAux ps.length 0 ps initFeatures).paragraph_lengths.length ≤
        ((analyzeAux ps.length 0 ps initFeatures).max_length : ℚ)
      rw [hgt, hgl, hgmax]
      exact hle2


/-- Witness for claim C9 at the one-paragraph input `["ab"]`. -/
theorem analyze_features_sound_witness :
    statsOrdered (Features.mk [2] [0] [] Option.none Option.none Option.none 2
      (mkRat 2 1) 2 (some 2)) :=
  (analyze_features_sound ["ab"]
    (Features.mk [2] [0] [] Option.none Option.none Option.none 2 (mkRat 2 1) 2
      (some 2)) rfl ⟨"ab", by simp, rfl⟩).2.2.2.2.2

/-- Claim C9 counterexample: the non-empty all-blank input `[""]` yields the
seed record — its `min_length` is still the `float('inf')` marker
(`Option.none`) and its average is 0, so the claimed ordering
min ≤ avg ≤ max fails although the paragraph sequence is non-empty. -/
theorem analyze_features_sound_cex :
    analyzeTextFeatures [""] = some initFeatures
    ∧ ¬ statsOrdered initFeatures
    ∧ ([""] : List String) ≠ [] := by
  refine ⟨rfl, ?_, by simp⟩
  rintro ⟨m, hm, _⟩
  exact absurd hm (by simp [initFeatures])
